import Mathlib

/-!
# Verification of the yggdrasil-mcp deep-planning server

Shallow embedding of `src/planning.ts` (the planning-session state machine,
scoring engine and plan renderer) and of the persistence manager's pure query
logic (`listPlans`).  JavaScript numbers are modelled as exact rationals
(`ℚ`); JSON-encoded string payloads are modelled by their parse outcome
(`Option (Except Unit Json)`: absent/empty, syntax error, or a parsed value),
since `JSON.parse` itself is external to the repository.  Time (`Date.now()`)
is passed explicitly as a natural number of milliseconds.
-/

namespace Yggdrasil

/-! ## JSON values

Model of the JavaScript values produced by `JSON.parse`. -/

inductive Json where
  | str (s : String)
  | num (q : ℚ)
  | bool (b : Bool)
  | null
  | arr (xs : List Json)
  | obj (fields : List (String × Json))
deriving Repr

/-- JavaScript truthiness of a JSON value (`null`, `false`, `0` and `""` are
falsy; arrays and objects are always truthy). -/
def jsTruthy : Json → Bool
  | .str s => !s.isEmpty
  | .num q => q != 0
  | .bool b => b
  | .null => false
  | .arr _ => true
  | .obj _ => true

/-- Decimal rendering of a rational whose denominator divides a power of ten.
Used to model JavaScript number-to-string conversion for the exact decimal
values that occur in this program (weights, scores, weighted scores). -/
def ratDecimalString (q : ℚ) : String :=
  let sign := if q < 0 then "-" else ""
  let q := |q|
  if q.den = 1 then sign ++ toString q.num.natAbs
  else
    let k := (List.range 40).find? (fun k => (q * (10 : ℚ) ^ k).den = 1)
    match k with
    | some k =>
      let n := (q * (10 : ℚ) ^ k).num.natAbs
      let s := toString n
      let s := String.mk (List.replicate (k + 1 - s.length) '0') ++ s
      let intPart := s.dropRight k
      let fracPart := s.takeRight k
      sign ++ intPart ++ "." ++ fracPart
    | none => sign ++ toString q.num.natAbs ++ "/" ++ toString q.den

mutual

/-- JavaScript `String(x)` conversion of a JSON value (`Array.prototype.map(String)`
applies this to array elements in `parseJsonStringArray`). -/
def jsString : Json → String
  | .str s => s
  | .num q => ratDecimalString q
  | .bool b => if b then "true" else "false"
  | .null => "null"
  | .arr xs => String.intercalate "," (jsStringElems xs)
  | .obj _ => "[object Object]"

/-- Elementwise string conversion inside an array (`null` elements render
as the empty string when an array is joined). -/
def jsStringElems : List Json → List String
  | [] => []
  | .null :: rest => "" :: jsStringElems rest
  | j :: rest => jsString j :: jsStringElems rest

end

/-- Property access `j[k]` on a non-null JavaScript value: a lookup for objects
(first binding wins, as in a parsed JSON object where later duplicates have
already overwritten earlier ones), `undefined` (`none`) for primitives. -/
def jsGetOpt (j : Json) (k : String) : Option Json :=
  match j with
  | .obj fields => (fields.find? (fun f => f.1 = k)).map (·.2)
  | _ => none

/-- `undefined`/`null` test: the `??` operator skips exactly these. -/
def jsNullish : Option Json → Bool
  | none => true
  | some .null => true
  | some _ => false

/-- The JavaScript `a ?? b` operator on possibly-absent values. -/
def jsCoalesce (a b : Option Json) : Option Json :=
  if jsNullish a then b else a

/-! ## Base-36 session identifiers

`src/planning.ts` line 388: `` const sessionId = `dp-${Date.now().toString(36)}` ``. -/

def base36Chars : List Char := "0123456789abcdefghijklmnopqrstuvwxyz".toList

def base36Digit (n : Nat) : Char := base36Chars.getD n '?'

/-- Digits of `n` in base 36 (most significant first), prepended to `acc`;
mirrors `Number.prototype.toString(36)` for natural numbers. -/
def natToBase36Core (n : Nat) (acc : List Char) : List Char :=
  if h : n < 36 then base36Digit (n % 36) :: acc
  else natToBase36Core (n / 36) (base36Digit (n % 36) :: acc)
termination_by n
decreasing_by
  exact Nat.div_lt_self (Nat.lt_of_lt_of_le (by norm_num) (Nat.not_lt.mp h)) (by norm_num)

def natToBase36 (n : Nat) : String := String.mk (natToBase36Core n [])

/-- The session id generated by `handleInit` at time `now` (milliseconds). -/
def mkSessionId (now : Nat) : String := "dp-" ++ natToBase36 now

/-! ## Scoring engine -/

structure EvaluationScores where
  feasibility : ℚ
  completeness : ℚ
  coherence : ℚ
  risk : ℚ
deriving DecidableEq, Repr

structure ScoreWeights where
  feasibility : ℚ
  completeness : ℚ
  coherence : ℚ
  risk : ℚ

def SCORE_WEIGHTS : ScoreWeights :=
  { feasibility := 0.3, completeness := 0.25, coherence := 0.25, risk := 0.2 }

/-- JavaScript `Math.round` (half-way cases round toward `+∞`). -/
def jsRound (q : ℚ) : ℤ := ⌊q + 1 / 2⌋

/-- `calculateWeightedScore` from `src/planning.ts` lines 186–193. -/
def calculateWeightedScore (scores : EvaluationScores) : ℚ :=
  let raw :=
    scores.feasibility * SCORE_WEIGHTS.feasibility +
    scores.completeness * SCORE_WEIGHTS.completeness +
    scores.coherence * SCORE_WEIGHTS.coherence +
    (10 - scores.risk) * SCORE_WEIGHTS.risk
  (jsRound (raw * 100) : ℚ) / 100

/-! ## Step normalization -/

structure PlanStep where
  title : String
  description : String
  files : Option Json
  dependencies : Option Json
  complexity : Option Json
deriving Repr

/-- `normalizePlanStep` from `src/planning.ts` lines 173–184, on a non-null
parsed JSON value (`raw`): `raw.title ?? raw.action ?? raw.name ?? raw.step`,
then a `typeof === 'string'` check, with `"Step {index+1}"` / `""` defaults;
`files`/`dependencies`/`complexity` are spread through when truthy. -/
def normalizePlanStep (raw : Json) (index : Nat) : PlanStep :=
  let rawTitle :=
    jsCoalesce (jsGetOpt raw "title") (jsCoalesce (jsGetOpt raw "action")
      (jsCoalesce (jsGetOpt raw "name") (jsGetOpt raw "step")))
  let rawDescription :=
    jsCoalesce (jsGetOpt raw "description") (jsCoalesce (jsGetOpt raw "detail")
      (jsCoalesce (jsGetOpt raw "details") (jsGetOpt raw "info")))
  { title :=
      match rawTitle with
      | some (.str s) => s
      | _ => "Step " ++ toString (index + 1)
    description :=
      match rawDescription with
      | some (.str s) => s
      | _ => ""
    files := (jsGetOpt raw "files").filter (fun v => jsTruthy v)
    dependencies := (jsGetOpt raw "dependencies").filter (fun v => jsTruthy v)
    complexity := (jsGetOpt raw "complexity").filter (fun v => jsTruthy v) }

/-! ## Data model (`src/planning.ts` interfaces) -/

inductive PlanPhase where
  | init | clarify | explore | evaluate | finalize | done
deriving DecidableEq, Repr

def PlanPhase.toStr : PlanPhase → String
  | .init => "init"
  | .clarify => "clarify"
  | .explore => "explore"
  | .evaluate => "evaluate"
  | .finalize => "finalize"
  | .done => "done"

structure Clarification where
  question : String
  answer : Option String
deriving Repr

structure Approach where
  branchId : String
  name : String
  description : String
  pros : List String
  cons : List String
deriving Repr

structure Evaluation where
  branchId : String
  scores : EvaluationScores
  weightedScore : ℚ
  rationale : String
  recommendation : String
deriving Repr

structure PlanningSession where
  sessionId : String
  problem : String
  context : Option String
  constraints : List String
  phase : PlanPhase
  clarifications : List Clarification
  approaches : List Approach
  evaluations : List Evaluation
  selectedApproach : Option String
  steps : List PlanStep
  risks : List Json
  assumptions : List String
  successCriteria : List String
  createdAt : Nat
  updatedAt : Nat
deriving Repr

/-- `DeepPlanningInput` (`src/planning.ts` lines 74–103).  Fields carrying
JSON-encoded strings are modelled by their parse outcome: `none` for an
absent or empty string, `some (.error ())` for a non-empty string that is not
valid JSON, `some (.ok j)` for a non-empty string parsing to `j`. -/
structure DeepPlanningInput where
  phase : String
  problem : Option String := none
  context : Option String := none
  constraints : Option (Except Unit Json) := none
  question : Option String := none
  answer : Option String := none
  branchId : Option String := none
  name : Option String := none
  description : Option String := none
  pros : Option (Except Unit Json) := none
  cons : Option (Except Unit Json) := none
  feasibility : Option ℚ := none
  completeness : Option ℚ := none
  coherence : Option ℚ := none
  risk : Option ℚ := none
  rationale : Option String := none
  recommendation : Option String := none
  selectedBranch : Option String := none
  steps : Option (Except Unit Json) := none
  risks : Option (Except Unit Json) := none
  assumptions : Option (Except Unit Json) := none
  successCriteria : Option (Except Unit Json) := none
  format : Option String := none

inductive Status where
  | ok | error | complete
deriving DecidableEq, Repr

structure DeepPlanningOutput where
  sessionId : String
  phase : String
  status : Status
  approachCount : Nat
  evaluationCount : Nat
  validNextPhases : List String
  message : String
  plan : Option String
deriving Repr

/-- Falsiness of an optional string field (`!input.problem` is true for both
`undefined` and the empty string). -/
def jsFalsyStr : Option String → Bool
  | none => true
  | some s => s.isEmpty

/-! ## Constants (`src/planning.ts` lines 116–137) -/

def VALID_PHASES : List String := ["init", "clarify", "explore", "evaluate", "finalize"]

/-- `VALID_TRANSITIONS[key] ?? []` — the transition table, keyed by the
current phase string (`''` when no session exists). -/
def validTransitionsFor (key : String) : List String :=
  if key = "" then ["init"]
  else if key = "init" then ["clarify", "explore"]
  else if key = "clarify" then ["clarify", "explore"]
  else if key = "explore" then ["explore", "evaluate", "clarify"]
  else if key = "evaluate" then ["evaluate", "explore", "finalize"]
  else if key = "finalize" then []
  else if key = "done" then ["init"]
  else []

def VALID_RECOMMENDATIONS : List String := ["pursue", "refine", "abandon"]

/-! ## JSON payload parsing (`src/planning.ts` lines 141–171)

`parseJsonStringArray` / `parseJsonArray` throw `TypeError`s; the `Except`
result models the thrown message. -/

def parseJsonStringArray (value : Option (Except Unit Json)) (fieldName : String) :
    Except String (List String) :=
  match value with
  | none => .ok []
  | some (.error ()) => .error ("Invalid JSON for " ++ fieldName)
  | some (.ok parsed) =>
    match parsed with
    | .arr xs => .ok (xs.map jsString)
    | _ => .error (fieldName ++ " must be a JSON array")

def parseJsonArray (value : Option (Except Unit Json)) (fieldName : String) :
    Except String (List Json) :=
  match value with
  | none => .ok []
  | some (.error ()) => .error ("Invalid JSON for " ++ fieldName)
  | some (.ok parsed) =>
    match parsed with
    | .arr xs => .ok xs
    | _ => .error (fieldName ++ " must be a JSON array")

/-! ## Markdown section builders (`src/planning.ts` lines 197–318) -/

/-- `Number.prototype.toFixed(2)`, exact for multiples of `1/100` (the only
values it is applied to in this program). -/
def ratToFixed2 (q : ℚ) : String :=
  let n := jsRound (q * 100)
  let sign := if n < 0 then "-" else ""
  let a := n.natAbs
  sign ++ toString (a / 100) ++ "." ++
    (let f := toString (a % 100)
     if (a % 100) < 10 then "0" ++ f else f)

def buildHeaderSection (session : PlanningSession) (selectedName : String) : List String :=
  let lines := ["# Plan: " ++ selectedName, "", "## Problem", session.problem, ""]
  let lines := lines ++
    (match session.context with
     | some ctx => if ctx.isEmpty then [] else ["## Context", ctx, ""]
     | none => [])
  let lines := lines ++
    (if session.constraints.length > 0 then
       ["## Constraints"] ++ session.constraints.map (fun c => "- " ++ c) ++ [""]
     else [])
  lines ++
    (if session.clarifications.length > 0 then
       ["## Clarifications", "", "| Question | Answer |", "|----------|--------|"] ++
       session.clarifications.map (fun c =>
         "| " ++ c.question ++ " | " ++ c.answer.getD "Pending" ++ " |") ++ [""]
     else [])

def buildSelectedApproachSection (selected : Option Approach)
    (selectedEval : Option Evaluation) : List String :=
  let lines := ["## Selected Approach: " ++ ((selected.map (·.name)).getD "N/A"), ""]
  let lines := lines ++
    (match selectedEval with
     | some ev =>
       ["**Score:** " ++ ratToFixed2 ev.weightedScore ++ "/10",
        "**Rationale:** " ++ ev.rationale,
        "**Recommendation:** " ++ ev.recommendation,
        "",
        "| Criterion | Score |",
        "|-----------|-------|",
        "| Feasibility | " ++ ratDecimalString ev.scores.feasibility ++ "/10 |",
        "| Completeness | " ++ ratDecimalString ev.scores.completeness ++ "/10 |",
        "| Coherence | " ++ ratDecimalString ev.scores.coherence ++ "/10 |",
        "| Risk | " ++ ratDecimalString ev.scores.risk ++ "/10 |",
        ""]
     | none => [])
  let lines := lines ++
    (match selected with
     | some sel =>
       if sel.pros.length > 0 then
         ["**Pros:**"] ++ sel.pros.map (fun p => "- " ++ p) ++ [""]
       else []
     | none => [])
  lines ++
    (match selected with
     | some sel =>
       if sel.cons.length > 0 then
         ["**Cons:**"] ++ sel.cons.map (fun c => "- " ++ c) ++ [""]
       else []
     | none => [])

def buildRejectedSection (rejected : List Approach) (evaluations : List Evaluation) :
    List String :=
  if rejected.length = 0 then []
  else
    ["## Rejected Approaches", ""] ++
    rejected.flatMap (fun r =>
      let rEval := evaluations.find? (fun e => e.branchId = r.branchId)
      ["### " ++ r.name] ++
      (match rEval with
       | some ev =>
         ["**Score:** " ++ ratToFixed2 ev.weightedScore ++ "/10 | **Recommendation:** " ++
            ev.recommendation,
          "**Rationale:** " ++ ev.rationale]
       | none => []) ++
      [""])

/-- The JavaScript `x.length` read used by `step.files && step.files.length > 0`
on an arbitrary pass-through value (arrays and strings have a length; objects
only if they carry a numeric `length` property; other primitives yield
`undefined`, which compares `> 0` as false). -/
def jsLengthVal : Json → Option ℚ
  | .arr xs => some xs.length
  | .str s => some s.length
  | .obj fs =>
    match fs.find? (fun f => f.1 = "length") with
    | some (_, .num q) => some q
    | _ => none
  | _ => none

/-- Render the per-step extra line for a pass-through list field
(`files`/`dependencies`).  `v.join(sep)` throws a `TypeError` when the
truthy, positive-`length` value is not an array. -/
def joinLine (label : String) (fieldName : String) (sep : String) (v : Option Json) :
    Except String (List String) :=
  match v with
  | none => .ok []
  | some (.arr xs) =>
    .ok (if xs.length > 0 then [label ++ String.intercalate sep (jsStringElems xs)] else [])
  | some other =>
    match jsLengthVal other with
    | some n =>
      if n > 0 then .error ("step." ++ fieldName ++ ".join is not a function") else .ok []
    | none => .ok []

def buildStepsSection (steps : List PlanStep) : Except String (List String) :=
  if steps.length = 0 then .ok []
  else do
    let body ← steps.enum.foldlM (fun acc si => do
      let index := si.1
      let step := si.2
      let fileLines ← joinLine "- **Files:** " "files" ", " step.files
      let depLines ← joinLine "- **Depends on:** Step " "dependencies" ", Step " step.dependencies
      return acc ++
        ["### Step " ++ toString (index + 1) ++ ": " ++ step.title, step.description] ++
        fileLines ++ depLines ++
        (match step.complexity with
         | some c => ["- **Complexity:** " ++ jsString c]
         | none => []) ++
        [""]) []
    return ["## Implementation Steps", ""] ++ body

/-- Property read `r.description` on a risk entry that was cast, unvalidated,
from parsed JSON: throws on `null`, yields `undefined` (rendered as the string
`"undefined"`) for absent properties or non-object primitives. -/
def riskField (r : Json) (k : String) : Except String String :=
  match r with
  | .null => .error ("Cannot read properties of null (reading '" ++ k ++ "')")
  | j => .ok (((jsGetOpt j k).map jsString).getD "undefined")

def buildFooterSection (session : PlanningSession) : Except String (List String) := do
  let riskLines ←
    if session.risks.length > 0 then do
      let rows ← session.risks.mapM (fun r => do
        let d ← riskField r "description"
        let m ← riskField r "mitigation"
        return "| " ++ d ++ " | " ++ m ++ " |")
      pure (["## Risks", "", "| Risk | Mitigation |", "|------|------------|"] ++ rows ++ [""])
    else pure []
  let lines := riskLines ++
    (if session.assumptions.length > 0 then
       ["## Assumptions"] ++ session.assumptions.map (fun a => "- " ++ a) ++ [""]
     else [])
  return lines ++
    (if session.successCriteria.length > 0 then
       ["## Success Criteria"] ++ session.successCriteria.map (fun c => "- [ ] " ++ c) ++ [""]
     else [])

/-! ## Plan generation (`src/planning.ts` lines 563–615) -/

def generateMarkdownPlan (session : PlanningSession) : Except String String := do
  let selected := session.approaches.find? (fun a => some a.branchId = session.selectedApproach)
  let selectedEval :=
    session.evaluations.find? (fun e => some e.branchId = session.selectedApproach)
  let rejected := session.approaches.filter (fun a => ¬(some a.branchId = session.selectedApproach))
  let stepsSection ← buildStepsSection session.steps
  let footerSection ← buildFooterSection session
  return String.intercalate "\n"
    (buildHeaderSection session ((selected.map (·.name)).getD "Untitled") ++
     buildSelectedApproachSection selected selectedEval ++
     buildRejectedSection rejected session.evaluations ++
     stepsSection ++
     footerSection)

/-- One brace character as text. -/
def lbr : String := "\x7b"
def rbr : String := "\x7d"

/-- JSON string escaping as performed by `JSON.stringify` (common cases). -/
def jsonEscape (s : String) : String :=
  s.data.foldl (fun acc c =>
    acc ++
      (if c = '"' then "\\\""
       else if c = '\\' then "\\\\"
       else if c = '\n' then "\\n"
       else if c = '\t' then "\\t"
       else if c = '\r' then "\\r"
       else String.singleton c)) ""

mutual

/-- `JSON.stringify(v, null, 2)` at indentation level `ind` (spaces already
emitted by the caller for the first line). -/
def jsonStringify (ind : String) : Json → String
  | .str s => "\"" ++ jsonEscape s ++ "\""
  | .num q => ratDecimalString q
  | .bool b => if b then "true" else "false"
  | .null => "null"
  | .arr [] => "[]"
  | .arr (x :: xs) =>
    "[\n" ++ String.intercalate ",\n" (jsonStringifyItems (ind ++ "  ") (x :: xs)) ++
      "\n" ++ ind ++ "]"
  | .obj [] => lbr ++ rbr
  | .obj (f :: fs) =>
    lbr ++ "\n" ++ String.intercalate ",\n" (jsonStringifyFields (ind ++ "  ") (f :: fs)) ++
      "\n" ++ ind ++ rbr

def jsonStringifyItems (ind : String) : List Json → List String
  | [] => []
  | x :: xs => (ind ++ jsonStringify ind x) :: jsonStringifyItems ind xs

def jsonStringifyFields (ind : String) : List (String × Json) → List String
  | [] => []
  | (k, v) :: fs =>
    (ind ++ "\"" ++ jsonEscape k ++ "\": " ++ jsonStringify ind v) :: jsonStringifyFields ind fs

end

/-- Build a JSON object, dropping `undefined`-valued properties the way
`JSON.stringify` does. -/
def jsonObjOf (fields : List (String × Option Json)) : Json :=
  .obj (fields.filterMap (fun f => f.2.map (fun v => (f.1, v))))

def planStepToJson (s : PlanStep) : Json :=
  jsonObjOf
    [("title", some (.str s.title)),
     ("description", some (.str s.description)),
     ("files", s.files),
     ("dependencies", s.dependencies),
     ("complexity", s.complexity)]

def generateJsonPlan (session : PlanningSession) : String :=
  let selected := session.approaches.find? (fun a => some a.branchId = session.selectedApproach)
  let selectedEval :=
    session.evaluations.find? (fun e => some e.branchId = session.selectedApproach)
  let rejected :=
    (session.approaches.filter (fun a => ¬(some a.branchId = session.selectedApproach))).map
      (fun a =>
        let aEval := session.evaluations.find? (fun e => e.branchId = a.branchId)
        jsonObjOf
          [("name", some (.str a.name)),
           ("branchId", some (.str a.branchId)),
           ("score", (aEval.map (fun e => Json.num e.weightedScore))),
           ("recommendation", (aEval.map (fun e => Json.str e.recommendation))),
           ("rationale", (aEval.map (fun e => Json.str e.rationale)))])
  jsonStringify ""
    (jsonObjOf
      [("title", some (.str ((selected.map (·.name)).getD "Untitled"))),
       ("problem", some (.str session.problem)),
       ("context", session.context.map Json.str),
       ("constraints", some (.arr (session.constraints.map Json.str))),
       ("clarifications", some (.arr (session.clarifications.map (fun c =>
          jsonObjOf
            [("question", some (.str c.question)),
             ("answer", c.answer.map Json.str)])))),
       ("selectedApproach", some (jsonObjOf
          [("name", selected.map (fun a => Json.str a.name)),
           ("branchId", session.selectedApproach.map Json.str),
           ("score", selectedEval.map (fun e => Json.num e.weightedScore)),
           ("rationale", selectedEval.map (fun e => Json.str e.rationale))])),
       ("rejectedApproaches", some (.arr rejected)),
       ("steps", some (.arr (session.steps.map planStepToJson))),
       ("risks", some (.arr session.risks)),
       ("assumptions", some (.arr (session.assumptions.map Json.str))),
       ("successCriteria", some (.arr (session.successCriteria.map Json.str)))])

/-! ## Server (`src/planning.ts` lines 322–703)

The server's mutable `this.session` field is modelled as an explicit
`Option PlanningSession` threaded through the step function. -/

/-- The key used to index `VALID_TRANSITIONS`: `this.session?.phase ?? ''`. -/
def sessionKey (session : Option PlanningSession) : String :=
  match session with
  | none => ""
  | some s => s.phase.toStr

/-- `getValidNextPhases` (lines 336–339). -/
def getValidNextPhases (session : Option PlanningSession) : List String :=
  validTransitionsFor (sessionKey session)

/-- `makeOutput` (lines 341–356); reads the (post-mutation) session. -/
def makeOutput (session : Option PlanningSession) (status : Status) (message : String)
    (plan : Option String := none) : DeepPlanningOutput :=
  { sessionId := (session.map (·.sessionId)).getD ""
    phase := (session.map (fun s => s.phase.toStr)).getD ""
    status := status
    approachCount := (session.map (fun s => s.approaches.length)).getD 0
    evaluationCount := (session.map (fun s => s.evaluations.length)).getD 0
    validNextPhases := getValidNextPhases session
    message := message
    plan := plan }

def invalidPhaseMsg (requestedPhase : String) : String :=
  "Invalid phase: \"" ++ requestedPhase ++ "\". Valid phases: " ++
    String.intercalate ", " VALID_PHASES

def noSessionMsg : String := "No active planning session. Call with phase \"init\" first."

def cannotTransitionMsg (currentPhase requestedPhase : String) (validNext : List String) :
    String :=
  "Cannot transition from \"" ++ currentPhase ++ "\" to \"" ++ requestedPhase ++
    "\". Valid next phases: " ++ String.intercalate ", " validNext

/-- `validateTransition` (lines 358–379): `none` means the transition is
allowed, `some msg` is the returned error message. -/
def validateTransition (session : Option PlanningSession) (requestedPhase : String) :
    Option String :=
  if ¬(requestedPhase ∈ VALID_PHASES) then some (invalidPhaseMsg requestedPhase)
  else if requestedPhase ≠ "init" ∧ session.isNone then some noSessionMsg
  else if requestedPhase = "init" then none
  else
    let validNext := getValidNextPhases session
    if ¬(requestedPhase ∈ validNext) then
      some (cannotTransitionMsg ((session.map (fun s => s.phase.toStr)).getD "(none)")
        requestedPhase validNext)
    else none

/-- Result of one phase handler: a normal return (carrying the session the
server holds afterwards and the built output), or a propagating JavaScript
exception (carrying the session state at the moment of the throw). -/
inductive HandlerOutcome where
  | ret (session : Option PlanningSession) (out : DeepPlanningOutput)
  | thrown (session : Option PlanningSession) (msg : String)

/-- `handleInit` (lines 383–415). -/
def handleInit (session : Option PlanningSession) (input : DeepPlanningInput) (now : Nat) :
    HandlerOutcome :=
  if jsFalsyStr input.problem then
    .ret session (makeOutput session .error "Phase \"init\" requires a \"problem\" field.")
  else
    match parseJsonStringArray input.constraints "constraints" with
    | .error m => .thrown session m
    | .ok cs =>
      let fresh : PlanningSession :=
        { sessionId := mkSessionId now
          problem := input.problem.getD ""
          context := input.context
          constraints := cs
          phase := .init
          clarifications := []
          approaches := []
          evaluations := []
          selectedApproach := none
          steps := []
          risks := []
          assumptions := []
          successCriteria := []
          createdAt := now
          updatedAt := now }
      .ret (some fresh) (makeOutput (some fresh) .ok
        ("Planning session \"" ++ fresh.sessionId ++
          "\" created. Define your problem further with \"clarify\" or start exploring approaches with \"explore\"."))

/-- `handleClarify` (lines 417–438). -/
def handleClarify (session : PlanningSession) (input : DeepPlanningInput) (now : Nat) :
    HandlerOutcome :=
  if jsFalsyStr input.question then
    .ret (some session)
      (makeOutput (some session) .error "Phase \"clarify\" requires a \"question\" field.")
  else
    let s :=
      { session with
          clarifications :=
            session.clarifications ++ [{ question := input.question.getD "", answer := input.answer }]
          phase := .clarify
          updatedAt := now }
    .ret (some s) (makeOutput (some s) .ok
      ("Clarification recorded (" ++ toString s.clarifications.length ++
        " total). Continue clarifying or start exploring approaches."))

/-- `handleExplore` (lines 440–466). -/
def handleExplore (session : PlanningSession) (input : DeepPlanningInput) (now : Nat) :
    HandlerOutcome :=
  if jsFalsyStr input.branchId ∨ jsFalsyStr input.name then
    .ret (some session)
      (makeOutput (some session) .error "Phase \"explore\" requires \"branchId\" and \"name\" fields.")
  else if (session.approaches.find? (fun a => some a.branchId = input.branchId)).isSome then
    .ret (some session)
      (makeOutput (some session) .error
        ("Approach with branchId \"" ++ input.branchId.getD "" ++ "\" already exists."))
  else
    match parseJsonStringArray input.pros "pros" with
    | .error m => .thrown (some session) m
    | .ok prosList =>
      match parseJsonStringArray input.cons "cons" with
      | .error m => .thrown (some session) m
      | .ok consList =>
        let s :=
          { session with
              approaches := session.approaches ++
                [{ branchId := input.branchId.getD ""
                   name := input.name.getD ""
                   description := input.description.getD ""
                   pros := prosList
                   cons := consList }]
              phase := .explore
              updatedAt := now }
        .ret (some s) (makeOutput (some s) .ok
          ("Approach \"" ++ input.name.getD "" ++ "\" recorded (" ++
            toString s.approaches.length ++ " total). Explore more approaches or start evaluating."))

/-- `handleEvaluate` (lines 468–527). -/
def handleEvaluate (session : PlanningSession) (input : DeepPlanningInput) (now : Nat) :
    HandlerOutcome :=
  if jsFalsyStr input.branchId then
    .ret (some session)
      (makeOutput (some session) .error "Phase \"evaluate\" requires a \"branchId\" field.")
  else
    match session.approaches.find? (fun a => some a.branchId = input.branchId) with
    | none =>
      .ret (some session)
        (makeOutput (some session) .error
          ("No approach found with branchId \"" ++ input.branchId.getD "" ++ "\". Available: " ++
            String.intercalate ", " (session.approaches.map (·.branchId))))
    | some approach =>
      if (session.evaluations.find? (fun e => some e.branchId = input.branchId)).isSome then
        .ret (some session)
          (makeOutput (some session) .error
            ("Evaluation for branchId \"" ++ input.branchId.getD "" ++ "\" already exists."))
      else
        let scores : EvaluationScores :=
          { feasibility := input.feasibility.getD 5
            completeness := input.completeness.getD 5
            coherence := input.coherence.getD 5
            risk := input.risk.getD 5 }
        let recommendation := input.recommendation.getD "refine"
        if ¬(recommendation ∈ VALID_RECOMMENDATIONS) then
          .ret (some session)
            (makeOutput (some session) .error
              ("Invalid recommendation: \"" ++ recommendation ++ "\". Must be: " ++
                String.intercalate ", " VALID_RECOMMENDATIONS))
        else
          let weightedScore := calculateWeightedScore scores
          let s :=
            { session with
                evaluations := session.evaluations ++
                  [{ branchId := input.branchId.getD ""
                     scores := scores
                     weightedScore := weightedScore
                     rationale := input.rationale.getD ""
                     recommendation := recommendation }]
                phase := .evaluate
                updatedAt := now }
          .ret (some s) (makeOutput (some s) .ok
            ("Evaluation for \"" ++ approach.name ++ "\" recorded (score: " ++
              ratToFixed2 weightedScore ++ "/10, " ++ toString s.evaluations.length ++
              " total). Evaluate more or finalize."))

/-- Step-list normalization inside `handleFinalize`
(`rawSteps.map((raw, i) => normalizePlanStep(raw, i))`); a `null` element
makes the property reads inside `normalizePlanStep` throw. -/
def normalizeSteps (rawSteps : List Json) (start : Nat) : Except String (List PlanStep) :=
  match rawSteps with
  | [] => .ok []
  | .null :: _ => .error "Cannot read properties of null (reading 'title')"
  | raw :: rest =>
    (normalizeSteps rest (start + 1)).map (fun tl => normalizePlanStep raw start :: tl)

/-- `handleFinalize` (lines 529–559).  The session is mutated field by field
before each fallible parse, so a thrown parse error leaves the fields
assigned so far mutated. -/
def handleFinalize (session : PlanningSession) (input : DeepPlanningInput) (now : Nat) :
    HandlerOutcome :=
  if jsFalsyStr input.selectedBranch then
    .ret (some session)
      (makeOutput (some session) .error "Phase \"finalize\" requires a \"selectedBranch\" field.")
  else
    match session.approaches.find? (fun a => some a.branchId = input.selectedBranch) with
    | none =>
      .ret (some session)
        (makeOutput (some session) .error
          ("No approach found with branchId \"" ++ input.selectedBranch.getD "" ++
            "\". Available: " ++ String.intercalate ", " (session.approaches.map (·.branchId))))
    | some approach =>
      let s1 := { session with selectedApproach := input.selectedBranch }
      match parseJsonArray input.steps "steps" with
      | .error m => .thrown (some s1) m
      | .ok rawSteps =>
        match normalizeSteps rawSteps 0 with
        | .error m => .thrown (some s1) m
        | .ok stepsList =>
          let s2 := { s1 with steps := stepsList }
          match parseJsonArray input.risks "risks" with
          | .error m => .thrown (some s2) m
          | .ok risksList =>
            let s3 := { s2 with risks := risksList }
            match parseJsonStringArray input.assumptions "assumptions" with
            | .error m => .thrown (some s3) m
            | .ok assumptionsList =>
              let s4 := { s3 with assumptions := assumptionsList }
              match parseJsonStringArray input.successCriteria "successCriteria" with
              | .error m => .thrown (some s4) m
              | .ok criteria =>
                let s5 :=
                  { s4 with successCriteria := criteria, phase := .done, updatedAt := now }
                let format := input.format.getD "markdown"
                let planE : Except String String :=
                  if format = "json" then .ok (generateJsonPlan s5)
                  else generateMarkdownPlan s5
                match planE with
                | .error m => .thrown (some s5) m
                | .ok plan =>
                  .ret (some s5) (makeOutput (some s5) .complete
                    ("Plan finalized with approach \"" ++ approach.name ++ "\".") (some plan))

/-- Result of `processPlanningStep`: either the JSON-serialized structured
`DeepPlanningOutput` (with the out-of-band `isError` flag), or the
`catch`-block shape `\x7berror: message, status: 'failed'\x7d` (always flagged
as an error). -/
inductive StepResult where
  | structured (out : DeepPlanningOutput) (isError : Bool)
  | caught (errMsg : String)

/-- `processPlanningStep` (lines 619–703), as a function from the held
session and the input (plus the current time) to the new held session and
the call result. -/
def processPlanningStep (session : Option PlanningSession) (input : DeepPlanningInput)
    (now : Nat) : Option PlanningSession × StepResult :=
  match validateTransition session input.phase with
  | some transitionError =>
    (session,
     .structured
       { sessionId := (session.map (·.sessionId)).getD ""
         phase := (session.map (fun s => s.phase.toStr)).getD ""
         status := .error
         approachCount := (session.map (fun s => s.approaches.length)).getD 0
         evaluationCount := (session.map (fun s => s.evaluations.length)).getD 0
         validNextPhases := getValidNextPhases session
         message := transitionError
         plan := none } true)
  | none =>
    let outcome :=
      if input.phase = "init" then handleInit session input now
      else
        match session with
        | some sess =>
          if input.phase = "clarify" then handleClarify sess input now
          else if input.phase = "explore" then handleExplore sess input now
          else if input.phase = "evaluate" then handleEvaluate sess input now
          else if input.phase = "finalize" then handleFinalize sess input now
          else
            .ret (some sess)
              (makeOutput (some sess) .error ("Unhandled phase: " ++ input.phase))
        | none => .ret none (makeOutput none .error "No active planning session.")
    match outcome with
    | .thrown s m => (s, .caught m)
    | .ret s out => (s, .structured out (out.status = Status.error))

/-! ## Persistence manager query logic (`persistence.ts`) -/

/-- `PlanIndexEntry` from `persistence.ts`. -/
structure PlanIndexEntry where
  problem : String
  createdAt : String
  finalizedAt : Option String
  selectedBranch : Option String
  phase : String
  jsonlPath : String
  markdownPath : Option String
deriving DecidableEq, Repr

/-- The plans index: a `Partial<Record<string, PlanIndexEntry>>`, i.e. a
JSON map in insertion order whose values may be `undefined`. -/
abbrev PlansIndex := List (String × Option PlanIndexEntry)

/-- An index entry annotated with its sessionId (`\x7bsessionId, ...entry\x7d`). -/
structure AnnotatedEntry where
  sessionId : String
  entry : PlanIndexEntry
deriving DecidableEq, Repr

inductive StatusFilter where
  | complete | inProgress
deriving DecidableEq, Repr

structure ListFilters where
  status : Option StatusFilter := none
  keyword : Option String := none

/-- `l` starts with `p` (over character lists). -/
def startsWithList : List Char → List Char → Bool
  | _, [] => true
  | [], _ :: _ => false
  | c :: cs, p :: ps => c = p && startsWithList cs ps

/-- JavaScript `String.prototype.includes`. -/
def jsIncludes (s pat : String) : Bool :=
  go s.data pat.data
where
  go : List Char → List Char → Bool
  | [], pat => startsWithList [] pat
  | c :: cs, pat => startsWithList (c :: cs) pat || go cs pat

/-- `PersistenceManager.listPlans` from `persistence.ts`: annotate the
defined index entries with their sessionId, apply the optional status and
keyword filters, sort by `createdAt` descending (stably, as
`Array.prototype.sort` is stable). -/
def listPlans (index : PlansIndex) (filters : ListFilters) : List AnnotatedEntry :=
  let entries : List AnnotatedEntry :=
    index.filterMap (fun p => p.2.map (fun e => AnnotatedEntry.mk p.1 e))
  let entries : List AnnotatedEntry :=
    match filters.status with
    | some .complete => entries.filter (fun e => e.entry.phase = "done")
    | some .inProgress => entries.filter (fun e => ¬(e.entry.phase = "done"))
    | none => entries
  let entries : List AnnotatedEntry :=
    match filters.keyword with
    | some kw =>
      if kw.isEmpty then entries
      else entries.filter (fun e => jsIncludes e.entry.problem.toLower kw.toLower)
    | none => entries
  entries.mergeSort (fun a b => b.entry.createdAt ≤ a.entry.createdAt)

/-! ## Session resumption (modelled from the spec)

The v0.9.x resumption layer of `processPlanningStep` is not among the
provided sources (only its tests and the persistence manager are), so it is
modelled from the spec here. -/

/-- Modelled from the spec: one line of a per-session JSONL event log,
`\x7btimestamp, phase, session\x7d` (spec §3, "Event log entry"). -/
structure EventLine where
  timestamp : Nat
  phase : String
  session : PlanningSession

/-- Modelled from the spec: the durable store, mapping sessionIds to their
event logs (`\x7bplansDir\x7d/\x7bsessionId\x7d.jsonl` files). -/
abbrev EventStore := List (String × List EventLine)

def storeLookup (store : EventStore) (sid : String) : Option (List EventLine) :=
  (store.find? (fun p => p.1 = sid)).map (·.2)

/-- Modelled from the spec: load a session's latest snapshot from its event
log by "replaying all lines, keeping the last" (spec §4.1). -/
def loadLatestSnapshot (log : List EventLine) : Option PlanningSession :=
  (log.getLast?).map (·.session)

/-- Modelled from the spec: the not-found error for an unknown session id
(spec §4.1: "a not-found error naming the requested id"). -/
def sessionNotFoundMsg (sid : String) : String :=
  "Session \"" ++ sid ++ "\" not found."

/-- Modelled from the spec: the resumption protocol around
`processPlanningStep` (spec §4.1, "Session resumption protocol").  `reqSid`
is the optional session identifier carried by the call; the missing v0.9.x
code is modelled faithfully to the spec's four bullet points: `init` ignores
it; absent or matching ids proceed on the in-memory session; a different id
replaces the in-memory session with the latest snapshot replayed from the
store before normal processing; an unknown id yields a not-found error. -/
def processPlanningStepResume (store : EventStore) (session : Option PlanningSession)
    (input : DeepPlanningInput) (reqSid : Option String) (now : Nat) :
    Option PlanningSession × StepResult :=
  if input.phase = "init" then processPlanningStep session input now
  else
    match reqSid with
    | none => processPlanningStep session input now
    | some sid =>
      if (session.map (·.sessionId)).getD "" = sid then
        processPlanningStep session input now
      else
        match (storeLookup store sid).bind loadLatestSnapshot with
        | some loaded => processPlanningStep (some loaded) input now
        | none =>
          (session,
           .structured (makeOutput session .error (sessionNotFoundMsg sid)) true)

/-! ## Helper notions for the theorems -/

/-- `msg` literally contains `sub` (the message "names" it). -/
def Mentions (msg sub : String) : Prop := ∃ a b, msg = a ++ sub ++ b

/-- Rounding a number to two decimal places, as the spec words it
("rounded to 2 decimal places", with JavaScript `Math.round`). -/
def roundTo2 (q : ℚ) : ℚ := (jsRound (q * 100) : ℚ) / 100

/-- The `??`-chain of property reads used by the spec's alias rule, as a
fold over the list of alias keys. -/
def aliasChain (raw : Json) : List String → Option Json
  | [] => none
  | [k] => jsGetOpt raw k
  | k :: rest => jsCoalesce (jsGetOpt raw k) (aliasChain raw rest)

/-! ## Claim C4 -/

/-- Claim C4: `calculateWeightedScore` returns
`feasibility*0.30 + completeness*0.25 + coherence*0.25 + (10 - risk)*0.20`
rounded to 2 decimal places (so one hundred times the result is an integer),
and in particular maps `{10,10,10,0}` to `10.00`, `{0,0,0,10}` to `0.00` and
`{8,7,9,3}` to `7.8`.  JavaScript numbers are modelled as exact rationals. -/
theorem claim_C4 (s : EvaluationScores) :
    calculateWeightedScore s =
      roundTo2 (s.feasibility * 0.30 + s.completeness * 0.25 + s.coherence * 0.25 +
        (10 - s.risk) * 0.20) ∧
    (∃ n : ℤ, calculateWeightedScore s = (n : ℚ) / 100) ∧
    calculateWeightedScore ⟨10, 10, 10, 0⟩ = 10 ∧
    calculateWeightedScore ⟨0, 0, 0, 10⟩ = 0 ∧
    calculateWeightedScore ⟨8, 7, 9, 3⟩ = 7.8 := by
  refine ⟨?_,
    ⟨jsRound ((s.feasibility * SCORE_WEIGHTS.feasibility +
        s.completeness * SCORE_WEIGHTS.completeness +
        s.coherence * SCORE_WEIGHTS.coherence +
        (10 - s.risk) * SCORE_WEIGHTS.risk) * 100), rfl⟩, ?_, ?_, ?_⟩
  · unfold calculateWeightedScore roundTo2 SCORE_WEIGHTS
    norm_num
  · norm_num [calculateWeightedScore, SCORE_WEIGHTS, jsRound]
  · norm_num [calculateWeightedScore, SCORE_WEIGHTS, jsRound]
  · norm_num [calculateWeightedScore, SCORE_WEIGHTS, jsRound]

/-! ## Claim C5 -/

/-- Claim C5 counterexample: on `{title: 42, action: "Deploy"}` the code
takes the *first present* alias field (`title`, a number), fails the string
check and falls back to the default `"Step 1"`; the claim's rule ("first of
the fields whose value is a string") would instead yield `"Deploy"`. -/
theorem claim_C5_counterexample :
    (normalizePlanStep (.obj [("title", .num 42), ("action", .str "Deploy")]) 0).title
        = "Step 1" ∧
    (normalizePlanStep (.obj [("title", .num 42), ("action", .str "Deploy")]) 0).title
        ≠ "Deploy" := by
  exact ⟨rfl, by decide⟩

/-- Claim C5 (amended): `normalizePlanStep` takes the *first non-nullish* of
the alias fields `{title, action, name, step}` (resp. `{description, detail,
details, info}`); the value is used only if it is a string, otherwise the
default `"Step {1-based index}"` (resp. `""`) applies — later alias fields
are not consulted once an earlier one is present.  The claim's two concrete
examples hold as stated. -/
theorem claim_C5_amended (raw : Json) (i : Nat) :
    (normalizePlanStep raw i).title =
      (match aliasChain raw ["title", "action", "name", "step"] with
       | some (.str s) => s
       | _ => "Step " ++ toString (i + 1)) ∧
    (normalizePlanStep raw i).description =
      (match aliasChain raw ["description", "detail", "details", "info"] with
       | some (.str s) => s
       | _ => "") ∧
    normalizePlanStep (.obj [("action", .str "Deploy"), ("detail", .str "Push to prod")]) 0
      = { title := "Deploy", description := "Push to prod",
          files := none, dependencies := none, complexity := none } ∧
    normalizePlanStep (.obj []) 4
      = { title := "Step 5", description := "",
          files := none, dependencies := none, complexity := none } := by
  refine ⟨rfl, rfl, rfl, rfl⟩

/-! ## Claim C7 -/

theorem natToBase36Core_append (n : Nat) :
    ∀ acc, natToBase36Core n acc = natToBase36Core n [] ++ acc := by
  induction n using Nat.strong_induction_on with
  | _ n ih =>
    intro acc
    by_cases h : n < 36
    · conv_lhs => rw [natToBase36Core]
      conv_rhs => rw [natToBase36Core]
      simp [h]
    · have hdiv : n / 36 < n :=
        Nat.div_lt_self (Nat.lt_of_lt_of_le (by norm_num) (Nat.not_lt.mp h)) (by norm_num)
      conv_lhs => rw [natToBase36Core]
      conv_rhs => rw [natToBase36Core]
      simp only [h, dite_false]
      rw [ih _ hdiv, ih _ hdiv [base36Digit (n % 36)]]
      simp

theorem natToBase36Core_length_pos (n : Nat) : 1 ≤ (natToBase36Core n []).length := by
  by_cases h : n < 36
  · rw [natToBase36Core]
    simp [h]
  · rw [natToBase36Core]
    simp only [h, dite_false]
    rw [natToBase36Core_append]
    simp

/-- Number of base-36 digits produced for `n` in `[36^k, 36^(k+1))`. -/
theorem natToBase36Core_length (k : Nat) :
    ∀ n, 36 ^ k ≤ n → n < 36 ^ (k + 1) → (natToBase36Core n []).length = k + 1 := by
  induction k with
  | zero =>
    intro n _ h2
    norm_num at h2
    rw [natToBase36Core]
    simp [h2]
  | succ k ih =>
    intro n h1 h2
    have h36 : ¬ n < 36 := by
      have h3 : (36 : Nat) ^ 1 ≤ 36 ^ (k + 1) := Nat.pow_le_pow_right (by norm_num) (by omega)
      simp only [pow_one] at h3
      omega
    rw [natToBase36Core]
    simp only [h36, dite_false]
    rw [natToBase36Core_append]
    have hlow : 36 ^ k ≤ n / 36 := by
      rw [Nat.le_div_iff_mul_le (by norm_num)]
      calc 36 ^ k * 36 = 36 ^ (k + 1) := by ring
        _ ≤ n := h1
    have hhigh : n / 36 < 36 ^ (k + 1) := by
      rw [Nat.div_lt_iff_lt_mul (by norm_num)]
      calc n < 36 ^ (k + 1 + 1) := h2
        _ = 36 ^ (k + 1) * 36 := by ring
    rw [List.length_append, ih _ hlow hhigh]
    simp

theorem base36Digit_inj : ∀ i < 36, ∀ j < 36, base36Digit i = base36Digit j → i = j := by
  decide

/-- `Number.prototype.toString(36)` is injective on naturals. -/
theorem natToBase36Core_inj :
    ∀ n m, natToBase36Core n [] = natToBase36Core m [] → n = m := by
  intro n
  induction n using Nat.strong_induction_on with
  | _ n ih =>
    intro m h
    by_cases hn : n < 36
    · by_cases hm : m < 36
      · conv_lhs at h => rw [natToBase36Core]
        conv_rhs at h => rw [natToBase36Core]
        rw [dif_pos hn, dif_pos hm] at h
        simp only [List.cons.injEq] at h
        have := base36Digit_inj (n % 36) (Nat.mod_lt _ (by norm_num)) (m % 36)
          (Nat.mod_lt _ (by norm_num)) h.1
        omega
      · exfalso
        have hlen := congrArg List.length h
        conv_lhs at hlen => rw [natToBase36Core]
        conv_rhs at hlen => rw [natToBase36Core]
        rw [dif_pos hn, dif_neg hm, natToBase36Core_append, List.length_append] at hlen
        have hp := natToBase36Core_length_pos (m / 36)
        simp at hlen
        rw [hlen] at hp
        simp at hp
    · by_cases hm : m < 36
      · exfalso
        have hlen := congrArg List.length h
        conv_lhs at hlen => rw [natToBase36Core]
        conv_rhs at hlen => rw [natToBase36Core]
        rw [dif_neg hn, dif_pos hm, natToBase36Core_append, List.length_append] at hlen
        have hp := natToBase36Core_length_pos (n / 36)
        simp at hlen
        rw [hlen] at hp
        simp at hp
      · conv_lhs at h => rw [natToBase36Core]
        conv_rhs at h => rw [natToBase36Core]
        rw [dif_neg hn, dif_neg hm, natToBase36Core_append,
          natToBase36Core_append (m / 36)] at h
        have hsfx := List.append_inj' h (by simp)
        have hdig : base36Digit (n % 36) = base36Digit (m % 36) := by
          have h2 := hsfx.2
          simp only [List.cons.injEq, and_true] at h2
          exact h2
        have hmod := base36Digit_inj (n % 36) (Nat.mod_lt _ (by norm_num)) (m % 36)
          (Nat.mod_lt _ (by norm_num)) hdig
        have hdivlt : n / 36 < n :=
          Nat.div_lt_self (Nat.lt_of_lt_of_le (by norm_num) (Nat.not_lt.mp hn)) (by norm_num)
        have hdiv := ih _ hdivlt _ hsfx.1
        omega

theorem base36Digit_mem : ∀ n < 36, base36Digit n ∈ base36Chars := by decide

/-- Every character of the base-36 rendering is alphanumeric. -/
theorem natToBase36Core_chars :
    ∀ n acc c, c ∈ natToBase36Core n acc → c ∈ base36Chars ∨ c ∈ acc := by
  intro n
  induction n using Nat.strong_induction_on with
  | _ n ih =>
    intro acc c hc
    by_cases h : n < 36
    · rw [natToBase36Core] at hc
      simp only [h, dite_true, List.mem_cons] at hc
      rcases hc with h1 | h2
      · exact .inl (h1 ▸ base36Digit_mem _ (Nat.mod_lt _ (by norm_num)))
      · exact .inr h2
    · rw [natToBase36Core] at hc
      simp only [h, dite_false] at hc
      have hdivlt : n / 36 < n :=
        Nat.div_lt_self (Nat.lt_of_lt_of_le (by norm_num) (Nat.not_lt.mp h)) (by norm_num)
      rcases ih _ hdivlt _ _ hc with h1 | h2
      · exact .inl h1
      · rcases List.mem_cons.mp h2 with h3 | h4
        · exact .inl (h3 ▸ base36Digit_mem _ (Nat.mod_lt _ (by norm_num)))
        · exact .inr h4

/-- `natToBase36` of a contemporary timestamp (mid-1972 through 2059) has
exactly 8 characters. -/
theorem natToBase36_length_eight (t : Nat) (h1 : 36 ^ 7 ≤ t) (h2 : t < 36 ^ 8) :
    (natToBase36 t).length = 8 := by
  show (String.mk (natToBase36Core t [])).length = 8
  simpa [String.length] using natToBase36Core_length 7 t h1 h2

theorem mkSessionId_length (t : Nat) (h1 : 36 ^ 7 ≤ t) (h2 : t < 36 ^ 8) :
    (mkSessionId t).length = 11 := by
  show ("dp-" ++ natToBase36 t).length = 11
  rw [String.length_append, natToBase36_length_eight t h1 h2]
  decide

/-- Claim C7 counterexample: the sessionId generated by `handleInit` is
`"dp-" + Date.now().toString(36)` — at creation time `1760140800000` ms
(October 2025) it is an 11-character timestamp-derived string, not an
8-character random identifier; it is a pure function of the clock, so two
sessions created in the same millisecond share it. -/
theorem claim_C7_counterexample :
    (match handleInit none { phase := "init", problem := some "Build cache" }
        1760140800000 with
     | .ret (some s) _ => s.sessionId
     | _ => "") = mkSessionId 1760140800000 ∧
    (mkSessionId 1760140800000).length = 11 ∧
    (mkSessionId 1760140800000).length ≠ 8 ∧
    mkSessionId 1760140800000 = mkSessionId 1760140800000 := by
  have h11 : (mkSessionId 1760140800000).length = 11 :=
    mkSessionId_length _ (by norm_num) (by norm_num)
  refine ⟨rfl, h11, by rw [h11]; decide, rfl⟩

/-- Claim C7 (amended): the sessionId generated by a successful init call is
`"dp-"` followed by the base-36 rendering of the creation timestamp in
milliseconds — 11 characters in total (not 8) for contemporary timestamps
(those in `[36^7, 36^8)` ms, i.e. mid-1972 through 2059); its suffix is
alphanumeric (base-36), and it is injective in the creation millisecond
(unique per millisecond, not random: sessions created in the same
millisecond collide). -/
theorem claim_C7_amended (st : Option PlanningSession) (input : DeepPlanningInput)
    (now : Nat) (s : Option PlanningSession) (out : DeepPlanningOutput)
    (hret : handleInit st input now = .ret s out) (hok : out.status ≠ Status.error) :
    (∃ f, s = some f ∧ f.sessionId = mkSessionId now) ∧
    (36 ^ 7 ≤ now → now < 36 ^ 8 → (mkSessionId now).length = 11) ∧
    (∀ c ∈ (natToBase36 now).data, c ∈ base36Chars) ∧
    (∀ t t', mkSessionId t = mkSessionId t' → t = t') := by
  refine ⟨?_, fun h1 h2 => mkSessionId_length now h1 h2, ?_, ?_⟩
  · unfold handleInit at hret
    split at hret
    · injection hret with hs hout
      exact absurd (congrArg DeepPlanningOutput.status hout.symm)
        (by simpa [makeOutput] using hok)
    · split at hret
      · exact absurd hret (by simp)
      · injection hret with hs hout
        exact ⟨_, hs.symm, rfl⟩
  · intro c hc
    rcases natToBase36Core_chars now [] c hc with h | h
    · exact h
    · simp at h
  · intro t t' h
    have hdata := congrArg String.data h
    simp only [mkSessionId] at hdata
    rw [String.data_append, String.data_append] at hdata
    have hsuffix : (natToBase36 t).data = (natToBase36 t').data :=
      List.append_cancel_left hdata
    exact natToBase36Core_inj t t' (by simpa [natToBase36] using hsuffix)

/-- Closed witness for the amended C7 theorem: a concrete init call at a
concrete contemporary timestamp. -/
theorem claim_C7_amended_witness :
    (mkSessionId 1760140800000).length = 11 :=
  (claim_C7_amended none { phase := "init", problem := some "p" } 1760140800000 _ _ rfl
      (by decide)).2.1 (by norm_num) (by norm_num)

/-! ## Claim C1 -/

theorem validTransitionsFor_subset (key x : String) (h : x ∈ validTransitionsFor key) :
    x ∈ VALID_PHASES := by
  unfold validTransitionsFor at h
  repeat' split at h
  all_goals try exact absurd h (List.not_mem_nil x)
  all_goals fin_cases h <;> decide

theorem validateTransition_init (st : Option PlanningSession) :
    validateTransition st "init" = none := by
  unfold validateTransition
  have h1 : "init" ∈ VALID_PHASES := by decide
  simp [h1]

/-- Claim C1: `init` always passes transition validation; any other request
passes iff a session exists and the requested phase is in the transition
table's row for the session's current phase; a transition failure carries a
message naming the current phase, the requested phase and the valid
alternatives; in particular `finalize` and `evaluate` are rejected from
phase `init`.  The two remaining failure modes are also pinned down: a
request naming no valid phase fails with the invalid-phase message (naming
the request), and a non-init request without a session fails with the
no-session message. -/
theorem claim_C1 (st : Option PlanningSession) (req : String) :
    validateTransition st "init" = none ∧
    (validateTransition st req = none ↔
      (req = "init" ∨ ∃ s, st = some s ∧ req ∈ validTransitionsFor s.phase.toStr)) ∧
    (∀ s, st = some s → req ∈ VALID_PHASES → req ≠ "init" →
      ¬(req ∈ validTransitionsFor s.phase.toStr) →
      validateTransition st req =
        some (cannotTransitionMsg s.phase.toStr req (validTransitionsFor s.phase.toStr)) ∧
      Mentions (cannotTransitionMsg s.phase.toStr req (validTransitionsFor s.phase.toStr))
        s.phase.toStr ∧
      Mentions (cannotTransitionMsg s.phase.toStr req (validTransitionsFor s.phase.toStr))
        req ∧
      Mentions (cannotTransitionMsg s.phase.toStr req (validTransitionsFor s.phase.toStr))
        (String.intercalate ", " (validTransitionsFor s.phase.toStr))) ∧
    (∀ s, st = some s → s.phase = PlanPhase.init →
      validateTransition st "finalize" ≠ none ∧ validateTransition st "evaluate" ≠ none) ∧
    (¬(req ∈ VALID_PHASES) →
      validateTransition st req = some (invalidPhaseMsg req) ∧
      Mentions (invalidPhaseMsg req) req) ∧
    (st = none → req ≠ "init" → req ∈ VALID_PHASES →
      validateTransition st req = some noSessionMsg) := by
  refine ⟨validateTransition_init st, ?_, ?_, ?_, ?_, ?_⟩
  · by_cases hreq : req = "init"
    · subst hreq
      simp [validateTransition_init]
    · constructor
      · intro h
        by_cases hv : req ∈ VALID_PHASES
        · cases st with
          | none =>
            exfalso
            unfold validateTransition at h
            simp [hv, hreq] at h
          | some s =>
            refine .inr ⟨s, rfl, ?_⟩
            by_contra hmem
            unfold validateTransition at h
            simp [hv, hreq, getValidNextPhases, sessionKey, hmem] at h
        · exfalso
          unfold validateTransition at h
          simp [hv] at h
      · intro h
        rcases h with h | ⟨s, hst, hmem⟩
        · exact absurd h hreq
        · subst hst
          have hv : req ∈ VALID_PHASES := validTransitionsFor_subset _ _ hmem
          unfold validateTransition
          simp [hv, hreq, getValidNextPhases, sessionKey, hmem]
  · intro s hst hv hreq hmem
    subst hst
    refine ⟨?_, ?_, ?_, ?_⟩
    · unfold validateTransition
      simp [hv, hreq, getValidNextPhases, sessionKey, hmem]
    · exact ⟨"Cannot transition from \"",
        "\" to \"" ++ req ++ "\". Valid next phases: " ++
          String.intercalate ", " (validTransitionsFor s.phase.toStr),
        by simp [cannotTransitionMsg, String.append_assoc]⟩
    · exact ⟨"Cannot transition from \"" ++ s.phase.toStr ++ "\" to \"",
        "\". Valid next phases: " ++
          String.intercalate ", " (validTransitionsFor s.phase.toStr),
        by simp [cannotTransitionMsg, String.append_assoc]⟩
    · exact ⟨"Cannot transition from \"" ++ s.phase.toStr ++ "\" to \"" ++ req ++
          "\". Valid next phases: ", "",
        by simp [cannotTransitionMsg, String.append_assoc]⟩
  · intro s hst hphase
    subst hst
    constructor
    · unfold validateTransition
      simp [VALID_PHASES, getValidNextPhases, sessionKey, hphase, PlanPhase.toStr,
        validTransitionsFor]
    · unfold validateTransition
      simp [VALID_PHASES, getValidNextPhases, sessionKey, hphase, PlanPhase.toStr,
        validTransitionsFor]
  · intro hv
    refine ⟨by unfold validateTransition; simp [hv], ?_⟩
    exact ⟨"Invalid phase: \"",
      "\". Valid phases: " ++ String.intercalate ", " VALID_PHASES,
      by simp [invalidPhaseMsg, String.append_assoc]⟩
  · intro hst hreq hv
    subst hst
    unfold validateTransition
    simp [hv, hreq]

/-- A concrete session freshly created by init (used by closed witnesses). -/
def sampleInitSession : PlanningSession :=
  { sessionId := mkSessionId 100
    problem := "Build cache"
    context := none
    constraints := []
    phase := .init
    clarifications := []
    approaches := []
    evaluations := []
    selectedApproach := none
    steps := []
    risks := []
    assumptions := []
    successCriteria := []
    createdAt := 100
    updatedAt := 100 }

/-- Closed witness for claim C1: from a session in phase `init`, requesting
`finalize` is rejected while `init` itself passes, and the failure message
names the phases involved. -/
theorem claim_C1_witness :
    validateTransition (some sampleInitSession) "init" = none ∧
    validateTransition (some sampleInitSession) "finalize" ≠ none ∧
    validateTransition (some sampleInitSession) "evaluate" ≠ none ∧
    validateTransition (some sampleInitSession) "finalize" =
      some (cannotTransitionMsg "init" "finalize" ["clarify", "explore"]) ∧
    Mentions (cannotTransitionMsg "init" "finalize" ["clarify", "explore"]) "finalize" ∧
    validateTransition (some sampleInitSession) "done" = some (invalidPhaseMsg "done") ∧
    validateTransition none "explore" = some noSessionMsg := by
  obtain ⟨ha, hb, hc, hd, hinv, hnos⟩ := claim_C1 (some sampleInitSession) "finalize"
  obtain ⟨he, hf⟩ := hd sampleInitSession rfl rfl
  obtain ⟨hmsg, hm1, hm2, hm3⟩ := hc sampleInitSession rfl (by decide) (by decide) (by decide)
  obtain ⟨-, -, -, -, hinv2, -⟩ := claim_C1 (some sampleInitSession) "done"
  obtain ⟨-, -, -, -, -, hnos2⟩ := claim_C1 none "explore"
  exact ⟨ha, he, hf, hmsg, hm2, (hinv2 (by decide)).1, hnos2 rfl (by decide) (by decide)⟩

/-! ## Per-handler facts -/

theorem handleInit_ret_facts {st : Option PlanningSession} {input : DeepPlanningInput}
    {now : Nat} {s : Option PlanningSession} {out : DeepPlanningOutput}
    (h : handleInit st input now = .ret s out) :
    out.validNextPhases = getValidNextPhases s ∧
    (out.status = Status.error → s = st) ∧
    (out.status ≠ Status.error → ∃ f, s = some f ∧ f.phase = PlanPhase.init) := by
  unfold handleInit at h
  split at h
  · injection h with h1 h2
    subst h1
    subst h2
    exact ⟨rfl, fun _ => rfl, fun hne => absurd rfl hne⟩
  · split at h
    · exact absurd h (by simp)
    · injection h with h1 h2
      subst h1
      subst h2
      exact ⟨rfl, fun he => by simp [makeOutput] at he, fun _ => ⟨_, rfl, rfl⟩⟩

theorem handleInit_thrown {st : Option PlanningSession} {input : DeepPlanningInput}
    {now : Nat} {s : Option PlanningSession} {m : String}
    (h : handleInit st input now = .thrown s m) : s = st := by
  unfold handleInit at h
  split at h
  · exact absurd h (by simp)
  · split at h
    · injection h with h1 h2
      exact h1.symm
    · exact absurd h (by simp)

theorem handleClarify_ret_facts {sess : PlanningSession} {input : DeepPlanningInput}
    {now : Nat} {s : Option PlanningSession} {out : DeepPlanningOutput}
    (h : handleClarify sess input now = .ret s out) :
    out.validNextPhases = getValidNextPhases s ∧
    (out.status = Status.error → s = some sess) ∧
    (out.status ≠ Status.error → ∃ f, s = some f ∧ f.phase = PlanPhase.clarify) := by
  unfold handleClarify at h
  split at h
  · injection h with h1 h2
    subst h1
    subst h2
    exact ⟨rfl, fun _ => rfl, fun hne => absurd rfl hne⟩
  · injection h with h1 h2
    subst h1
    subst h2
    exact ⟨rfl, fun he => by simp [makeOutput] at he, fun _ => ⟨_, rfl, rfl⟩⟩

theorem handleClarify_no_throw {sess : PlanningSession} {input : DeepPlanningInput}
    {now : Nat} {s : Option PlanningSession} {m : String}
    (h : handleClarify sess input now = .thrown s m) : False := by
  unfold handleClarify at h
  split at h <;> exact absurd h (by simp)

theorem handleExplore_ret_facts {sess : PlanningSession} {input : DeepPlanningInput}
    {now : Nat} {s : Option PlanningSession} {out : DeepPlanningOutput}
    (h : handleExplore sess input now = .ret s out) :
    out.validNextPhases = getValidNextPhases s ∧
    (out.status = Status.error → s = some sess) ∧
    (out.status ≠ Status.error → ∃ f, s = some f ∧ f.phase = PlanPhase.explore) := by
  unfold handleExplore at h
  split at h
  · injection h with h1 h2
    subst h1
    subst h2
    exact ⟨rfl, fun _ => rfl, fun hne => absurd rfl hne⟩
  · split at h
    · injection h with h1 h2
      subst h1
      subst h2
      exact ⟨rfl, fun _ => rfl, fun hne => absurd rfl hne⟩
    · split at h
      · exact absurd h (by simp)
      · split at h
        · exact absurd h (by simp)
        · injection h with h1 h2
          subst h1
          subst h2
          exact ⟨rfl, fun he => by simp [makeOutput] at he, fun _ => ⟨_, rfl, rfl⟩⟩

theorem handleExplore_thrown {sess : PlanningSession} {input : DeepPlanningInput}
    {now : Nat} {s : Option PlanningSession} {m : String}
    (h : handleExplore sess input now = .thrown s m) : s = some sess := by
  unfold handleExplore at h
  split at h
  · exact absurd h (by simp)
  · split at h
    · exact absurd h (by simp)
    · split at h
      · injection h with h1 h2
        exact h1.symm
      · split at h
        · injection h with h1 h2
          exact h1.symm
        · exact absurd h (by simp)

theorem handleEvaluate_ret_facts {sess : PlanningSession} {input : DeepPlanningInput}
    {now : Nat} {s : Option PlanningSession} {out : DeepPlanningOutput}
    (h : handleEvaluate sess input now = .ret s out) :
    out.validNextPhases = getValidNextPhases s ∧
    (out.status = Status.error → s = some sess) ∧
    (out.status ≠ Status.error → ∃ f, s = some f ∧ f.phase = PlanPhase.evaluate) := by
  unfold handleEvaluate at h
  split at h
  · injection h with h1 h2
    subst h1
    subst h2
    exact ⟨rfl, fun _ => rfl, fun hne => absurd rfl hne⟩
  · split at h
    · injection h with h1 h2
      subst h1
      subst h2
      exact ⟨rfl, fun _ => rfl, fun hne => absurd rfl hne⟩
    · split at h
      · injection h with h1 h2
        subst h1
        subst h2
        exact ⟨rfl, fun _ => rfl, fun hne => absurd rfl hne⟩
      · dsimp only at h
        split at h
        · injection h with h1 h2
          subst h1
          subst h2
          exact ⟨rfl, fun _ => rfl, fun hne => absurd rfl hne⟩
        · injection h with h1 h2
          subst h1
          subst h2
          exact ⟨rfl, fun he => by simp [makeOutput] at he, fun _ => ⟨_, rfl, rfl⟩⟩

theorem handleEvaluate_no_throw {sess : PlanningSession} {input : DeepPlanningInput}
    {now : Nat} {s : Option PlanningSession} {m : String}
    (h : handleEvaluate sess input now = .thrown s m) : False := by
  unfold handleEvaluate at h
  split at h
  · exact absurd h (by simp)
  · split at h
    · exact absurd h (by simp)
    · split at h
      · exact absurd h (by simp)
      · dsimp only at h
        split at h <;> exact absurd h (by simp)

theorem handleFinalize_ret_facts {sess : PlanningSession} {input : DeepPlanningInput}
    {now : Nat} {s : Option PlanningSession} {out : DeepPlanningOutput}
    (h : handleFinalize sess input now = .ret s out) :
    out.validNextPhases = getValidNextPhases s ∧
    (out.status = Status.error → s = some sess) ∧
    (out.status ≠ Status.error → ∃ f, s = some f ∧ f.phase = PlanPhase.done) := by
  unfold handleFinalize at h
  split at h
  · injection h with h1 h2
    subst h1
    subst h2
    exact ⟨rfl, fun _ => rfl, fun hne => absurd rfl hne⟩
  · split at h
    · injection h with h1 h2
      subst h1
      subst h2
      exact ⟨rfl, fun _ => rfl, fun hne => absurd rfl hne⟩
    · dsimp only at h
      split at h
      · exact absurd h (by simp)
      · split at h
        · exact absurd h (by simp)
        · split at h
          · exact absurd h (by simp)
          · split at h
            · exact absurd h (by simp)
            · split at h
              · exact absurd h (by simp)
              · split at h
                · exact absurd h (by simp)
                · injection h with h1 h2
                  subst h1
                  subst h2
                  exact ⟨rfl, fun he => by simp [makeOutput] at he, fun _ => ⟨_, rfl, rfl⟩⟩

theorem handleFinalize_thrown {sess : PlanningSession} {input : DeepPlanningInput}
    {now : Nat} {s : Option PlanningSession} {m : String}
    (h : handleFinalize sess input now = .thrown s m) :
    ∃ s2 sb, s = some s2 ∧ input.selectedBranch = some sb ∧
      s2.selectedApproach = some sb ∧
      s2.sessionId = sess.sessionId ∧ s2.problem = sess.problem ∧
      s2.context = sess.context ∧ s2.constraints = sess.constraints ∧
      s2.clarifications = sess.clarifications ∧ s2.approaches = sess.approaches ∧
      s2.evaluations = sess.evaluations ∧ s2.createdAt = sess.createdAt ∧
      (s2.phase = sess.phase ∨ s2.phase = PlanPhase.done) ∧
      (s2.updatedAt = sess.updatedAt ∨ s2.updatedAt = now) := by
  unfold handleFinalize at h
  split at h
  · exact absurd h (by simp)
  · rename_i hfal
    obtain ⟨sb, hsb⟩ : ∃ sb, input.selectedBranch = some sb := by
      cases hsel : input.selectedBranch with
      | none => exact absurd (by simp [jsFalsyStr, hsel]) hfal
      | some sb => exact ⟨sb, rfl⟩
    split at h
    · exact absurd h (by simp)
    · dsimp only at h
      split at h
      · injection h with h1 h2
        exact ⟨_, sb, h1.symm, hsb, by simp [hsb], rfl, rfl, rfl, rfl, rfl, rfl, rfl, rfl,
          .inl rfl, .inl rfl⟩
      · split at h
        · injection h with h1 h2
          exact ⟨_, sb, h1.symm, hsb, by simp [hsb], rfl, rfl, rfl, rfl, rfl, rfl, rfl, rfl,
            .inl rfl, .inl rfl⟩
        · split at h
          · injection h with h1 h2
            exact ⟨_, sb, h1.symm, hsb, by simp [hsb], rfl, rfl, rfl, rfl, rfl, rfl, rfl, rfl,
              .inl rfl, .inl rfl⟩
          · split at h
            · injection h with h1 h2
              exact ⟨_, sb, h1.symm, hsb, by simp [hsb], rfl, rfl, rfl, rfl, rfl, rfl, rfl, rfl,
                .inl rfl, .inl rfl⟩
            · split at h
              · injection h with h1 h2
                exact ⟨_, sb, h1.symm, hsb, by simp [hsb], rfl, rfl, rfl, rfl, rfl, rfl, rfl,
                  rfl, .inl rfl, .inl rfl⟩
              · split at h
                · injection h with h1 h2
                  exact ⟨_, sb, h1.symm, hsb, by simp [hsb], rfl, rfl, rfl, rfl, rfl, rfl, rfl,
                    rfl, .inr rfl, .inr rfl⟩
                · exact absurd h (by simp)

/-- Master case analysis of one `processPlanningStep` call: output invariants
for structured results, and state preservation / the finalize partial-mutation
pattern for thrown-and-caught results. -/
theorem processStep_master (st : Option PlanningSession) (input : DeepPlanningInput)
    (now : Nat) (st' : Option PlanningSession) (r : StepResult)
    (h : processPlanningStep st input now = (st', r)) :
    (∀ out e, r = .structured out e →
      out.validNextPhases = getValidNextPhases st' ∧
      (out.status = Status.error → st' = st) ∧
      (out.status ≠ Status.error →
        ∃ f, st' = some f ∧
          (input.phase = "init" → f.phase = PlanPhase.init) ∧
          (input.phase = "clarify" → f.phase = PlanPhase.clarify) ∧
          (input.phase = "explore" → f.phase = PlanPhase.explore) ∧
          (input.phase = "evaluate" → f.phase = PlanPhase.evaluate) ∧
          (input.phase = "finalize" → f.phase = PlanPhase.done) ∧
          f.phase ≠ PlanPhase.finalize) ∧
      e = decide (out.status = Status.error)) ∧
    (∀ m, r = .caught m →
      (input.phase ≠ "finalize" → st' = st) ∧
      (input.phase = "finalize" →
        ∃ sess s2 sb, st = some sess ∧ st' = some s2 ∧
          input.selectedBranch = some sb ∧ s2.selectedApproach = some sb ∧
          s2.sessionId = sess.sessionId ∧ s2.problem = sess.problem ∧
          s2.context = sess.context ∧ s2.constraints = sess.constraints ∧
          s2.clarifications = sess.clarifications ∧ s2.approaches = sess.approaches ∧
          s2.evaluations = sess.evaluations ∧ s2.createdAt = sess.createdAt ∧
          (s2.phase = sess.phase ∨ s2.phase = PlanPhase.done) ∧
          (s2.updatedAt = sess.updatedAt ∨ s2.updatedAt = now))) := by
  unfold processPlanningStep at h
  cases hv : validateTransition st input.phase with
  | some msg =>
    rw [hv] at h
    dsimp only at h
    simp only [Prod.mk.injEq] at h
    obtain ⟨hst', hr⟩ := h
    subst hst'
    constructor
    · intro out e hre
      rw [← hr] at hre
      injection hre with h1 h2
      subst h1
      exact ⟨rfl, fun _ => rfl, fun hne => absurd rfl hne, h2.symm⟩
    · intro m hre
      rw [← hr] at hre
      exact absurd hre (by simp)
  | none =>
    rw [hv] at h
    dsimp only at h
    by_cases hinit : input.phase = "init"
    · rw [if_pos hinit] at h
      cases hh : handleInit st input now with
      | ret s o =>
        rw [hh] at h
        dsimp only at h
        simp only [Prod.mk.injEq] at h
        obtain ⟨hst', hr⟩ := h
        subst hst'
        obtain ⟨hvn, herr, hok⟩ := handleInit_ret_facts hh
        constructor
        · intro out e hre
          rw [← hr] at hre
          injection hre with h1 h2
          subst h1
          refine ⟨hvn, herr, fun hne => ?_, h2.symm⟩
          obtain ⟨f, hf, hfp⟩ := hok hne
          refine ⟨f, hf, fun _ => hfp, ?_, ?_, ?_, ?_, by rw [hfp]; decide⟩
          all_goals intro hc; rw [hinit] at hc; exact absurd hc (by decide)
        · intro m hre
          rw [← hr] at hre
          exact absurd hre (by simp)
      | thrown s m =>
        rw [hh] at h
        dsimp only at h
        simp only [Prod.mk.injEq] at h
        obtain ⟨hst', hr⟩ := h
        subst hst'
        constructor
        · intro out e hre
          rw [← hr] at hre
          exact absurd hre (by simp)
        · intro m2 hre
          have hs := handleInit_thrown hh
          subst hs
          exact ⟨fun _ => rfl, fun hc => absurd (hinit ▸ hc) (by decide)⟩
    · rw [if_neg hinit] at h
      cases st with
      | none =>
        dsimp only at h
        simp only [Prod.mk.injEq] at h
        obtain ⟨hst', hr⟩ := h
        subst hst'
        constructor
        · intro out e hre
          rw [← hr] at hre
          injection hre with h1 h2
          subst h1
          exact ⟨rfl, fun _ => rfl, fun hne => absurd rfl hne, h2.symm⟩
        · intro m hre
          rw [← hr] at hre
          exact absurd hre (by simp)
      | some sess =>
        dsimp only at h
        by_cases hcl : input.phase = "clarify"
        · rw [if_pos hcl] at h
          cases hh : handleClarify sess input now with
          | ret s o =>
            rw [hh] at h
            dsimp only at h
            simp only [Prod.mk.injEq] at h
            obtain ⟨hst', hr⟩ := h
            subst hst'
            obtain ⟨hvn, herr, hok⟩ := handleClarify_ret_facts hh
            constructor
            · intro out e hre
              rw [← hr] at hre
              injection hre with h1 h2
              subst h1
              refine ⟨hvn, herr, fun hne => ?_, h2.symm⟩
              obtain ⟨f, hf, hfp⟩ := hok hne
              refine ⟨f, hf, ?_, fun _ => hfp, ?_, ?_, ?_, by rw [hfp]; decide⟩
              all_goals intro hc; rw [hcl] at hc; exact absurd hc (by decide)
            · intro m hre
              rw [← hr] at hre
              exact absurd hre (by simp)
          | thrown s m =>
            exact absurd (handleClarify_no_throw hh) (by simp)
        · rw [if_neg hcl] at h
          by_cases hex : input.phase = "explore"
          · rw [if_pos hex] at h
            cases hh : handleExplore sess input now with
            | ret s o =>
              rw [hh] at h
              dsimp only at h
              simp only [Prod.mk.injEq] at h
              obtain ⟨hst', hr⟩ := h
              subst hst'
              obtain ⟨hvn, herr, hok⟩ := handleExplore_ret_facts hh
              constructor
              · intro out e hre
                rw [← hr] at hre
                injection hre with h1 h2
                subst h1
                refine ⟨hvn, herr, fun hne => ?_, h2.symm⟩
                obtain ⟨f, hf, hfp⟩ := hok hne
                refine ⟨f, hf, ?_, ?_, fun _ => hfp, ?_, ?_, by rw [hfp]; decide⟩
                all_goals intro hc; rw [hex] at hc; exact absurd hc (by decide)
              · intro m hre
                rw [← hr] at hre
                exact absurd hre (by simp)
            | thrown s m =>
              rw [hh] at h
              dsimp only at h
              simp only [Prod.mk.injEq] at h
              obtain ⟨hst', hr⟩ := h
              subst hst'
              constructor
              · intro out e hre
                rw [← hr] at hre
                exact absurd hre (by simp)
              · intro m2 hre
                have hs := handleExplore_thrown hh
                subst hs
                exact ⟨fun _ => rfl, fun hc => absurd (hex ▸ hc) (by decide)⟩
          · rw [if_neg hex] at h
            by_cases hev : input.phase = "evaluate"
            · rw [if_pos hev] at h
              cases hh : handleEvaluate sess input now with
              | ret s o =>
                rw [hh] at h
                dsimp only at h
                simp only [Prod.mk.injEq] at h
                obtain ⟨hst', hr⟩ := h
                subst hst'
                obtain ⟨hvn, herr, hok⟩ := handleEvaluate_ret_facts hh
                constructor
                · intro out e hre
                  rw [← hr] at hre
                  injection hre with h1 h2
                  subst h1
                  refine ⟨hvn, herr, fun hne => ?_, h2.symm⟩
                  obtain ⟨f, hf, hfp⟩ := hok hne
                  refine ⟨f, hf, ?_, ?_, ?_, fun _ => hfp, ?_, by rw [hfp]; decide⟩
                  all_goals intro hc; rw [hev] at hc; exact absurd hc (by decide)
                · intro m hre
                  rw [← hr] at hre
                  exact absurd hre (by simp)
              | thrown s m =>
                exact absurd (handleEvaluate_no_throw hh) (by simp)
            · rw [if_neg hev] at h
              by_cases hfi : input.phase = "finalize"
              · rw [if_pos hfi] at h
                cases hh : handleFinalize sess input now with
                | ret s o =>
                  rw [hh] at h
                  dsimp only at h
                  simp only [Prod.mk.injEq] at h
                  obtain ⟨hst', hr⟩ := h
                  subst hst'
                  obtain ⟨hvn, herr, hok⟩ := handleFinalize_ret_facts hh
                  constructor
                  · intro out e hre
                    rw [← hr] at hre
                    injection hre with h1 h2
                    subst h1
                    refine ⟨hvn, herr, fun hne => ?_, h2.symm⟩
                    obtain ⟨f, hf, hfp⟩ := hok hne
                    refine ⟨f, hf, ?_, ?_, ?_, ?_, fun _ => hfp, by rw [hfp]; decide⟩
                    all_goals intro hc; rw [hfi] at hc; exact absurd hc (by decide)
                  · intro m hre
                    rw [← hr] at hre
                    exact absurd hre (by simp)
                | thrown s m =>
                  rw [hh] at h
                  dsimp only at h
                  simp only [Prod.mk.injEq] at h
                  obtain ⟨hst', hr⟩ := h
                  subst hst'
                  constructor
                  · intro out e hre
                    rw [← hr] at hre
                    exact absurd hre (by simp)
                  · intro m2 hre
                    refine ⟨fun hc => absurd hfi hc, fun _ => ?_⟩
                    obtain ⟨s2, sb, hs2, hsb, hsel, hrest⟩ := handleFinalize_thrown hh
                    exact ⟨sess, s2, sb, rfl, hs2, hsb, hsel, hrest⟩
              · rw [if_neg hfi] at h
                dsimp only at h
                simp only [Prod.mk.injEq] at h
                obtain ⟨hst', hr⟩ := h
                subst hst'
                constructor
                · intro out e hre
                  rw [← hr] at hre
                  injection hre with h1 h2
                  subst h1
                  exact ⟨rfl, fun _ => rfl, fun hne => absurd rfl hne, h2.symm⟩
                · intro m hre
                  rw [← hr] at hre
                  exact absurd hre (by simp)

/-! ## Claim C2 -/

/-- Claim C2: after every successful call (status `ok` or `complete`), the
returned `validNextPhases` equals the transition-table row for the phase
the session is in after the call; in particular `["clarify","explore"]`
after a successful init, `["explore","evaluate","clarify"]` after a
successful explore, and `["init"]` after a successful finalize. -/
theorem claim_C2 (st : Option PlanningSession) (input : DeepPlanningInput) (now : Nat)
    (st' : Option PlanningSession) (out : DeepPlanningOutput) (e : Bool)
    (h : processPlanningStep st input now = (st', .structured out e))
    (hok : out.status ≠ Status.error) :
    (∃ s', st' = some s' ∧ out.validNextPhases = validTransitionsFor s'.phase.toStr) ∧
    (input.phase = "init" → out.validNextPhases = ["clarify", "explore"]) ∧
    (input.phase = "explore" → out.validNextPhases = ["explore", "evaluate", "clarify"]) ∧
    (input.phase = "finalize" → out.validNextPhases = ["init"]) := by
  obtain ⟨hstr, -⟩ := processStep_master st input now st' _ h
  obtain ⟨hvn, -, hsome, -⟩ := hstr out e rfl
  obtain ⟨f, hf, hpi, -, hpe, -, hpf, -⟩ := hsome hok
  subst hf
  refine ⟨⟨f, rfl, hvn⟩, ?_, ?_, ?_⟩
  · intro hp
    rw [hvn]
    simp [getValidNextPhases, sessionKey, hpi hp, PlanPhase.toStr, validTransitionsFor]
  · intro hp
    rw [hvn]
    simp [getValidNextPhases, sessionKey, hpe hp, PlanPhase.toStr, validTransitionsFor]
  · intro hp
    rw [hvn]
    simp [getValidNextPhases, sessionKey, hpf hp, PlanPhase.toStr, validTransitionsFor]

/-- Closed witness for claim C2: a concrete successful init call returns
`validNextPhases = ["clarify", "explore"]`. -/
theorem claim_C2_witness :
    (match (processPlanningStep none { phase := "init", problem := some "Build cache" } 100).2 with
     | .structured out _ => out.validNextPhases
     | .caught _ => []) = ["clarify", "explore"] := by
  have h := claim_C2 none { phase := "init", problem := some "Build cache" } 100 _ _ _ rfl
    (by decide)
  exact h.2.1 rfl

/-! ## Claim C3 -/

/-- A concrete session sitting in phase `evaluate` with one approach,
used for the C3/C8 counterexamples. -/
def evalSession : PlanningSession :=
  { sessionId := "dp-x"
    problem := "p"
    context := none
    constraints := []
    phase := .evaluate
    clarifications := []
    approaches := [{ branchId := "a", name := "A", description := "", pros := [], cons := [] }]
    evaluations := []
    selectedApproach := none
    steps := []
    risks := []
    assumptions := []
    successCriteria := []
    createdAt := 0
    updatedAt := 0 }

/-- Claim C3 counterexample: a finalize call with a valid `selectedBranch`
but malformed `steps` JSON fails (the parse error is caught), yet it has
already mutated the in-memory session: `selectedApproach` changes from
`none` to `some "a"`. -/
theorem claim_C3_counterexample :
    (processPlanningStep (some evalSession)
        { phase := "finalize", selectedBranch := some "a", steps := some (.error ()) } 5).2
      = .caught "Invalid JSON for steps" ∧
    ((processPlanningStep (some evalSession)
        { phase := "finalize", selectedBranch := some "a", steps := some (.error ()) } 5).1.map
      (fun s => s.selectedApproach)) = some (some "a") ∧
    evalSession.selectedApproach = none ∧
    (processPlanningStep (some evalSession)
        { phase := "finalize", selectedBranch := some "a", steps := some (.error ()) } 5).1
      ≠ some evalSession := by
  refine ⟨rfl, rfl, rfl, fun hcontra => ?_⟩
  have h1 := congrArg (fun o => o.map (fun s => s.selectedApproach)) hcontra
  simp only at h1
  have h2 : (some (some "a") : Option (Option String)) = some none := h1
  simp at h2

/-- Claim C3 (amended): a call failing with a validation error leaves the
in-memory session unchanged, *except* a finalize call that passes the
`selectedBranch` checks and then throws (malformed JSON payload, or a crash
while rendering mis-shaped pass-through step/risk data): such a call leaves
`selectedApproach` set to the selected branch and may leave the other fields
assigned before the throw (`steps`, `risks`, `assumptions`, and — on a
render-time crash — `successCriteria`, `phase = done`, `updatedAt`) mutated;
the identity fields (`sessionId`, `problem`, `context`, `constraints`,
`clarifications`, `approaches`, `evaluations`, `createdAt`) are never
mutated by a failed call. -/
theorem claim_C3_amended (st : Option PlanningSession) (input : DeepPlanningInput)
    (now : Nat) (st' : Option PlanningSession) (r : StepResult)
    (h : processPlanningStep st input now = (st', r)) :
    (∀ out, r = .structured out true → st' = st) ∧
    (∀ m, r = .caught m → input.phase ≠ "finalize" → st' = st) ∧
    (∀ m, r = .caught m → input.phase = "finalize" →
      ∃ sess s2 sb, st = some sess ∧ st' = some s2 ∧
        input.selectedBranch = some sb ∧ s2.selectedApproach = some sb ∧
        s2.sessionId = sess.sessionId ∧ s2.problem = sess.problem ∧
        s2.context = sess.context ∧ s2.constraints = sess.constraints ∧
        s2.clarifications = sess.clarifications ∧ s2.approaches = sess.approaches ∧
        s2.evaluations = sess.evaluations ∧ s2.createdAt = sess.createdAt ∧
        (s2.phase = sess.phase ∨ s2.phase = PlanPhase.done) ∧
        (s2.updatedAt = sess.updatedAt ∨ s2.updatedAt = now)) := by
  obtain ⟨hstr, hcaught⟩ := processStep_master st input now st' _ h
  refine ⟨?_, fun m hm => (hcaught m hm).1, fun m hm => (hcaught m hm).2⟩
  intro out hre
  obtain ⟨-, herr, -, hflag⟩ := hstr out true hre
  exact herr (by simpa using hflag.symm)

/-- Closed witness for the amended C3 theorem: a failed clarify call (missing
`question`) leaves the session unchanged. -/
theorem claim_C3_amended_witness :
    (processPlanningStep (some evalSession) { phase := "evaluate" } 7).1
      = some evalSession := by
  have h := claim_C3_amended (some evalSession) { phase := "evaluate" } 7 _ _ rfl
  exact h.1 _ rfl

/-! ## Claim C10 -/

/-- Reachable server states: no session initially, closed under calls. -/
inductive Reachable : Option PlanningSession → Prop where
  | initial : Reachable none
  | step (st : Option PlanningSession) (input : DeepPlanningInput) (now : Nat) :
      Reachable st → Reachable (processPlanningStep st input now).1

/-- Claim C10: the phase value `finalize` is unreachable — every reachable
session's phase is one of init/clarify/explore/evaluate/done (a successful
finalize call sets the phase directly to `done`), so the transition table's
`finalize` row is never consulted. -/
theorem claim_C10 :
    (∀ st, Reachable st → ∀ s, st = some s →
      s.phase ≠ PlanPhase.finalize ∧
      s.phase ∈ [PlanPhase.init, PlanPhase.clarify, PlanPhase.explore,
        PlanPhase.evaluate, PlanPhase.done]) ∧
    (∀ st input now s' out e,
      processPlanningStep st input now = (some s', .structured out e) →
      out.status ≠ Status.error → input.phase = "finalize" →
      s'.phase = PlanPhase.done) := by
  constructor
  · intro st hreach
    induction hreach with
    | initial =>
      intro s hs
      exact absurd hs (by simp)
    | step st input now hprev ih =>
      intro s hs
      have hne : s.phase ≠ PlanPhase.finalize := by
        have hres : processPlanningStep st input now =
            (some s, (processPlanningStep st input now).2) := by
          rw [← hs]
        cases hr2 : (processPlanningStep st input now).2 with
        | structured out e =>
          rw [hr2] at hres
          obtain ⟨hstr, -⟩ := processStep_master st input now _ _ hres
          obtain ⟨-, herr, hok, -⟩ := hstr out e rfl
          by_cases hstat : out.status = Status.error
          · exact (ih s (herr hstat).symm).1
          · obtain ⟨f, hf, -, -, -, -, -, hfin⟩ := hok hstat
            injection hf with hsf
            rw [hsf]
            exact hfin
        | caught m =>
          rw [hr2] at hres
          obtain ⟨-, hcaught⟩ := processStep_master st input now _ _ hres
          by_cases hfin : input.phase = "finalize"
          · obtain ⟨sess, s2, sb, hsess, hst2, -, -, -, -, -, -, -, -, -, -, hphase, -⟩ :=
              (hcaught m rfl).2 hfin
            injection hst2 with hss2
            have hsessne := (ih sess hsess).1
            rw [hss2]
            rcases hphase with hp | hp
            · rw [hp]
              exact hsessne
            · rw [hp]
              decide
          · exact (ih s ((hcaught m rfl).1 hfin).symm).1
      refine ⟨hne, ?_⟩
      cases hp : s.phase <;> simp_all
  · intro st input now s' out e h hok hfin
    obtain ⟨hstr, -⟩ := processStep_master st input now _ _ h
    obtain ⟨-, -, hsome, -⟩ := hstr out e rfl
    obtain ⟨f, hf, -, -, -, -, hpf, -⟩ := hsome hok
    injection hf with hf2
    rw [hf2]
    exact hpf hfin

/-- Closed witness for claim C10: the state after one concrete init call is
reachable and its phase is not `finalize`. -/
theorem claim_C10_witness :
    sampleInitSession.phase ≠ PlanPhase.finalize :=
  (claim_C10.1 (processPlanningStep none { phase := "init", problem := some "Build cache" } 100).1
    (Reachable.step none { phase := "init", problem := some "Build cache" } 100
      Reachable.initial)
    sampleInitSession rfl).1

/-! ## Claim C8 -/

/-- Claim C8 counterexample: an init call with malformed `constraints` JSON
does not return the structured result with `status = error` — the thrown
parse error is caught and returned as the minimal
`\x7berror: message, status: 'failed'\x7d` shape (modelled as
`StepResult.caught`), which carries none of the structured fields. -/
theorem claim_C8_counterexample :
    (processPlanningStep none
        { phase := "init", problem := some "T", constraints := some (.error ()) } 0).2
      = .caught "Invalid JSON for constraints" ∧
    (∀ out e, (processPlanningStep none
        { phase := "init", problem := some "T", constraints := some (.error ()) } 0).2
      ≠ .structured out e) := by
  refine ⟨rfl, fun out e hcontra => ?_⟩
  rw [show (processPlanningStep none
      { phase := "init", problem := some "T", constraints := some (.error ()) } 0).2
      = .caught "Invalid JSON for constraints" from rfl] at hcontra
  exact absurd hcontra (by simp)

/-- Claim C8 (amended): a malformed or non-array JSON payload never crashes
the call — the `TypeError` thrown by the parse helper is caught by
`processPlanningStep` and surfaced with the out-of-band error flag, but as
the catch-block shape `\x7berror: message, status: 'failed'\x7d`
(`StepResult.caught`), *not* as the structured
`\x7bsessionId, phase, status: error, ...\x7d` result.  Shown here for the
three payload-bearing operations: init/`constraints`, explore/`pros` and
finalize/`steps`, including a wrong-top-level-shape variant. -/
theorem claim_C8_amended (st : Option PlanningSession) (sess : PlanningSession)
    (input : DeepPlanningInput) (now : Nat) :
    (input.phase = "init" → ¬jsFalsyStr input.problem →
      input.constraints = some (.error ()) →
      processPlanningStep st input now = (st, .caught "Invalid JSON for constraints")) ∧
    (input.phase = "init" → ¬jsFalsyStr input.problem →
      input.constraints = some (.ok (.str "x")) →
      processPlanningStep st input now = (st, .caught "constraints must be a JSON array")) ∧
    (input.phase = "explore" → validateTransition (some sess) "explore" = none →
      ¬jsFalsyStr input.branchId → ¬jsFalsyStr input.name →
      (sess.approaches.find? (fun a => some a.branchId = input.branchId)).isSome = false →
      input.pros = some (.error ()) →
      processPlanningStep (some sess) input now =
        (some sess, .caught "Invalid JSON for pros")) ∧
    (input.phase = "finalize" → validateTransition (some sess) "finalize" = none →
      ¬jsFalsyStr input.selectedBranch →
      (sess.approaches.find? (fun a => some a.branchId = input.selectedBranch)).isSome →
      input.steps = some (.error ()) →
      (processPlanningStep (some sess) input now).2 = .caught "Invalid JSON for steps") := by
  refine ⟨?_, ?_, ?_, ?_⟩
  · intro hph hprob hcons
    unfold processPlanningStep
    rw [hph, validateTransition_init st]
    dsimp only
    rw [if_pos rfl]
    unfold handleInit
    rw [if_neg hprob, hcons]
    dsimp [parseJsonStringArray]
  · intro hph hprob hcons
    unfold processPlanningStep
    rw [hph, validateTransition_init st]
    dsimp only
    rw [if_pos rfl]
    unfold handleInit
    rw [if_neg hprob, hcons]
    dsimp [parseJsonStringArray]
  · intro hph hvalid hbr hname hdup hpros
    unfold processPlanningStep
    rw [hph, hvalid]
    dsimp only
    rw [if_neg (by decide), if_neg (by decide), if_pos rfl]
    unfold handleExplore
    rw [if_neg (by simp [hbr, hname]), if_neg (by simp [hdup]), hpros]
    dsimp [parseJsonStringArray]
  · intro hph hvalid hsel hfound hsteps
    unfold processPlanningStep
    rw [hph, hvalid]
    dsimp only
    rw [if_neg (by decide), if_neg (by decide), if_neg (by decide), if_pos rfl]
    unfold handleFinalize
    rw [if_neg hsel]
    obtain ⟨approach, happ⟩ := Option.isSome_iff_exists.mp hfound
    rw [happ]
    dsimp only
    rw [hsteps]
    dsimp [parseJsonArray]

/-- Closed witness for the amended C8 theorem: concrete malformed-JSON calls
for init and finalize. -/
theorem claim_C8_amended_witness :
    processPlanningStep none
        { phase := "init", problem := some "T", constraints := some (.error ()) } 0
      = (none, .caught "Invalid JSON for constraints") ∧
    (processPlanningStep (some evalSession)
        { phase := "finalize", selectedBranch := some "a", steps := some (.error ()) } 5).2
      = .caught "Invalid JSON for steps" := by
  constructor
  · exact (claim_C8_amended none evalSession
      { phase := "init", problem := some "T", constraints := some (.error ()) } 0).1
      rfl (by decide) rfl
  · exact (claim_C8_amended (some evalSession) evalSession
      { phase := "finalize", selectedBranch := some "a", steps := some (.error ()) } 5).2.2.2
      rfl (by decide) (by decide) (by decide) rfl

/-! ## Claim C6 -/

/-- Claim C6 (spec-modelled resumption layer): for a non-init call carrying a
session id different from the in-memory session's id, the state machine
replaces the in-memory session with the latest snapshot replayed from that
session's event log and then proceeds exactly as a normal call on the loaded
session (so transition validation runs against the loaded session's phase);
when no such session exists in the store, the call returns a not-found error
naming the requested id. -/
theorem claim_C6 (store : EventStore) (st : Option PlanningSession)
    (input : DeepPlanningInput) (now : Nat) (sid : String)
    (hninit : input.phase ≠ "init")
    (hdiff : ¬((st.map (fun s => s.sessionId)).getD "" = sid)) :
    (∀ log loaded, storeLookup store sid = some log →
      loadLatestSnapshot log = some loaded →
      processPlanningStepResume store st input (some sid) now =
        processPlanningStep (some loaded) input now) ∧
    ((storeLookup store sid).bind loadLatestSnapshot = none →
      processPlanningStepResume store st input (some sid) now =
        (st, .structured (makeOutput st .error (sessionNotFoundMsg sid)) true) ∧
      Mentions (sessionNotFoundMsg sid) sid) := by
  constructor
  · intro log loaded hlog hload
    unfold processPlanningStepResume
    rw [if_neg hninit]
    dsimp only
    rw [if_neg hdiff]
    rw [show (storeLookup store sid).bind loadLatestSnapshot = some loaded by
      rw [hlog]
      exact hload]
  · intro hnone
    refine ⟨?_, "Session \"", "\" not found.", by simp [sessionNotFoundMsg, String.append_assoc]⟩
    unfold processPlanningStepResume
    rw [if_neg hninit]
    dsimp only
    rw [if_neg hdiff, hnone]

/-- Closed witness for claim C6: a one-session store; loading an existing id
resumes it, an unknown id produces the not-found error. -/
theorem claim_C6_witness :
    processPlanningStepResume [("dp-x", [⟨0, "evaluate", evalSession⟩])] none
        { phase := "explore", branchId := some "b", name := some "B" } (some "dp-x") 9
      = processPlanningStep (some evalSession)
          { phase := "explore", branchId := some "b", name := some "B" } 9 ∧
    processPlanningStepResume [("dp-x", [⟨0, "evaluate", evalSession⟩])] none
        { phase := "explore", branchId := some "b", name := some "B" } (some "dp-zzz") 9
      = (none, .structured (makeOutput none .error (sessionNotFoundMsg "dp-zzz")) true) := by
  constructor
  · exact (claim_C6 [("dp-x", [⟨0, "evaluate", evalSession⟩])] none
      { phase := "explore", branchId := some "b", name := some "B" } 9 "dp-x"
      (by decide) (by decide)).1 _ evalSession rfl rfl
  · exact ((claim_C6 [("dp-x", [⟨0, "evaluate", evalSession⟩])] none
      { phase := "explore", branchId := some "b", name := some "B" } 9 "dp-zzz"
      (by decide) (by decide)).2 rfl).1

/-! ## Claim C9 -/

theorem startsWithList_iff (p : List Char) :
    ∀ l, startsWithList l p = true ↔ ∃ r, l = p ++ r := by
  induction p with
  | nil =>
    intro l
    simp [startsWithList]
  | cons c cs ih =>
    intro l
    cases l with
    | nil =>
      simp [startsWithList]
    | cons a as =>
      simp only [startsWithList, Bool.and_eq_true, decide_eq_true_eq, ih as, List.cons_append]
      constructor
      · rintro ⟨rfl, r, rfl⟩
        exact ⟨r, rfl⟩
      · rintro ⟨r, hr⟩
        injection hr with h1 h2
        exact ⟨h1, r, h2⟩

theorem jsIncludes_go_iff (p : List Char) :
    ∀ l, jsIncludes.go l p = true ↔ ∃ pre post, l = pre ++ p ++ post := by
  intro l
  induction l with
  | nil =>
    simp only [jsIncludes.go, startsWithList_iff]
    constructor
    · rintro ⟨r, hr⟩
      exact ⟨[], r, hr⟩
    · rintro ⟨pre, post, hp⟩
      have h0 := List.append_eq_nil.mp hp.symm
      have h1 := List.append_eq_nil.mp h0.1
      refine ⟨post, ?_⟩
      rw [h1.2, h0.2]
      simp
  | cons a as ih =>
    simp only [jsIncludes.go, Bool.or_eq_true, startsWithList_iff, ih]
    constructor
    · rintro (⟨r, hr⟩ | ⟨pre, post, hp⟩)
      · exact ⟨[], r, by simpa using hr⟩
      · exact ⟨a :: pre, post, by simp [hp]⟩
    · rintro ⟨pre, post, hp⟩
      cases pre with
      | nil =>
        exact .inl ⟨post, by simpa using hp⟩
      | cons b bs =>
        injection hp with h1 h2
        exact .inr ⟨bs, post, h2⟩

/-- `String.prototype.includes` holds exactly when the pattern occurs as a
contiguous substring. -/
theorem jsIncludes_iff (s pat : String) :
    jsIncludes s pat = true ↔ ∃ pre post, s.data = pre ++ pat.data ++ post := by
  exact jsIncludes_go_iff pat.data s.data

/-- Membership in the sessionId-annotated view of the index. -/
theorem mem_annotated (index : PlansIndex) (e : AnnotatedEntry) :
    e ∈ index.filterMap (fun p => p.2.map (fun en => AnnotatedEntry.mk p.1 en)) ↔
    (e.sessionId, some e.entry) ∈ index := by
  rw [List.mem_filterMap]
  constructor
  · rintro ⟨⟨sid, en⟩, hp, hpe⟩
    cases en with
    | none => simp at hpe
    | some en =>
      simp only [Option.map_some] at hpe
      injection hpe with h2
      subst h2
      exact hp
  · intro h
    exact ⟨(e.sessionId, some e.entry), h, rfl⟩

/-- Claim C9: `listPlans` returns exactly the defined index entries
(annotated with their sessionId) that pass the supplied filters — status
`complete` keeps `phase = "done"`, `in-progress` keeps `phase ≠ "done"`, a
non-empty keyword keeps entries whose lowercased `problem` contains the
lowercased keyword as a substring — sorted by `createdAt` descending. -/
theorem claim_C9 (index : PlansIndex) (filters : ListFilters) :
    (∀ e, e ∈ listPlans index filters ↔
      ((e.sessionId, some e.entry) ∈ index ∧
       (filters.status = some .complete → e.entry.phase = "done") ∧
       (filters.status = some .inProgress → e.entry.phase ≠ "done") ∧
       (∀ kw, filters.keyword = some kw → ¬kw.isEmpty →
         ∃ pre post, e.entry.problem.toLower.data = pre ++ kw.toLower.data ++ post))) ∧
    (listPlans index filters).Pairwise
      (fun a b => b.entry.createdAt ≤ a.entry.createdAt) := by
  constructor
  · intro e
    obtain ⟨fst, fkw⟩ := filters
    rcases fst with - | sf
    · rcases fkw with - | kw
      · simp only [listPlans, List.mem_mergeSort]
        rw [mem_annotated]
        simp
      · by_cases hkemp : kw.isEmpty
        · simp only [listPlans, List.mem_mergeSort, hkemp, if_true]
          rw [mem_annotated]
          simp [hkemp]
        · simp only [listPlans, List.mem_mergeSort, hkemp, Bool.false_eq_true, if_false]
          rw [List.mem_filter, mem_annotated]
          rw [show (jsIncludes e.entry.problem.toLower kw.toLower = true) ↔
              (∃ pre post, e.entry.problem.toLower.data = pre ++ kw.toLower.data ++ post)
            from jsIncludes_iff _ _]
          constructor
          · rintro ⟨hidx, hinc⟩
            refine ⟨hidx, by simp, by simp, fun kw2 hkw2 hne => ?_⟩
            injection hkw2 with h3
            exact h3 ▸ hinc
          · rintro ⟨hidx, -, -, hinc⟩
            exact ⟨hidx, hinc kw rfl hkemp⟩
    · cases sf
      · rcases fkw with - | kw
        · simp only [listPlans, List.mem_mergeSort]
          rw [List.mem_filter, mem_annotated]
          simp
        · by_cases hkemp : kw.isEmpty
          · simp only [listPlans, List.mem_mergeSort, hkemp, if_true]
            rw [List.mem_filter, mem_annotated]
            simp [hkemp]
          · simp only [listPlans, List.mem_mergeSort, hkemp, Bool.false_eq_true, if_false]
            rw [List.mem_filter, List.mem_filter, mem_annotated]
            rw [show (jsIncludes e.entry.problem.toLower kw.toLower = true) ↔
                (∃ pre post, e.entry.problem.toLower.data = pre ++ kw.toLower.data ++ post)
              from jsIncludes_iff _ _]
            constructor
            · rintro ⟨⟨hidx, hphase⟩, hinc⟩
              refine ⟨hidx, fun _ => by simpa using hphase, by simp, fun kw2 hkw2 hne => ?_⟩
              injection hkw2 with h3
              exact h3 ▸ hinc
            · rintro ⟨hidx, hcomp, -, hinc⟩
              exact ⟨⟨hidx, by simpa using hcomp (by simp)⟩, hinc kw rfl hkemp⟩
      · rcases fkw with - | kw
        · simp only [listPlans, List.mem_mergeSort]
          rw [List.mem_filter, mem_annotated]
          simp
        · by_cases hkemp : kw.isEmpty
          · simp only [listPlans, List.mem_mergeSort, hkemp, if_true]
            rw [List.mem_filter, mem_annotated]
            simp [hkemp]
          · simp only [listPlans, List.mem_mergeSort, hkemp, Bool.false_eq_true, if_false]
            rw [List.mem_filter, List.mem_filter, mem_annotated]
            rw [show (jsIncludes e.entry.problem.toLower kw.toLower = true) ↔
                (∃ pre post, e.entry.problem.toLower.data = pre ++ kw.toLower.data ++ post)
              from jsIncludes_iff _ _]
            constructor
            · rintro ⟨⟨hidx, hphase⟩, hinc⟩
              refine ⟨hidx, by simp, fun _ => by simpa using hphase, fun kw2 hkw2 hne => ?_⟩
              injection hkw2 with h3
              exact h3 ▸ hinc
            · rintro ⟨hidx, -, hprog, hinc⟩
              exact ⟨⟨hidx, by simpa using hprog (by simp)⟩, hinc kw rfl hkemp⟩
  · unfold listPlans
    refine List.Pairwise.imp ?_ (List.sorted_mergeSort ?_ ?_ _)
    · intro a b hab
      simpa using hab
    · intro a b c hab hbc
      simp only [decide_eq_true_eq] at *
      exact le_trans hbc hab
    · intro a b
      simp only [Bool.or_eq_true, decide_eq_true_eq]
      exact le_total b.entry.createdAt a.entry.createdAt

end Yggdrasil








